import Mathlib

/-!
Verification development for the gravity_engine N-body simulation core.

Embedding conventions:
* `f64` values are modelled by `FP`: exact rational arithmetic extended with
  the IEEE special values `inf`, `ninf` and `nan`.  Finite arithmetic is exact
  (no rounding); decimal literals of the source denote their exact decimal
  rationals.  Special-value propagation follows IEEE-754 (for example
  `inf * 0 = nan`, comparisons involving `nan` are false, `f64::max` ignores
  `nan`).  Negative zero is identified with zero.
* `sqrt` is exact on rationals that are perfect squares (all concrete inputs
  used in witnesses are chosen so) and returns a placeholder on other inputs;
  no theorem depends on the placeholder value.
* Rust `Vec<T>` becomes `List T`; in-place mutation becomes explicit state
  passing; `Result` becomes `Except`.  Loops that abort early on error are
  modelled by recursions that stop at the first error, preserving the partial
  mutations made so far, exactly as the source `?` operator does.
* Wall-clock measurements (`Instant::now`) are environment input, modelled as
  the constant 0; no claim under study inspects them except for the ticks = 0
  path, where the source also leaves them at 0.
* The quadtree insertion of the source recurses on node depth, which is
  bounded because cell half sizes halve until they fall below `min_half`.
  The embedding makes the bound explicit through a fuel parameter; on fuel
  exhaustion the body is absorbed into the node aggregates, which is exactly
  the effect of the sources collapse-to-aggregated-leaf path, so the node
  statistics that the claims are about are fuel independent.
-/

/-- Model of an `f64` value: a rational (exact finite arithmetic) or one of
the IEEE special values. -/
inductive FP where
  | nan : FP
  | inf : FP
  | ninf : FP
  | fin : ℚ → FP
deriving DecidableEq, Repr

namespace FP

/-- IEEE negation. -/
def neg : FP → FP
  | nan => nan
  | inf => ninf
  | ninf => inf
  | fin q => fin (-q)

/-- IEEE addition (exact on finite values). -/
def add : FP → FP → FP
  | nan, _ => nan
  | _, nan => nan
  | inf, ninf => nan
  | ninf, inf => nan
  | inf, _ => inf
  | _, inf => inf
  | ninf, _ => ninf
  | _, ninf => ninf
  | fin a, fin b => fin (a + b)

/-- IEEE multiplication (exact on finite values); `inf * 0 = nan`. -/
def mul : FP → FP → FP
  | nan, _ => nan
  | _, nan => nan
  | inf, inf => inf
  | inf, ninf => ninf
  | ninf, inf => ninf
  | ninf, ninf => inf
  | inf, fin q => if q = 0 then nan else if 0 < q then inf else ninf
  | fin q, inf => if q = 0 then nan else if 0 < q then inf else ninf
  | ninf, fin q => if q = 0 then nan else if 0 < q then ninf else inf
  | fin q, ninf => if q = 0 then nan else if 0 < q then ninf else inf
  | fin a, fin b => fin (a * b)

/-- IEEE division (exact on finite values); division of a nonzero finite
value by zero gives a signed infinity, `0 / 0 = nan`. -/
def div : FP → FP → FP
  | nan, _ => nan
  | _, nan => nan
  | inf, inf => nan
  | inf, ninf => nan
  | ninf, inf => nan
  | ninf, ninf => nan
  | inf, fin q => if 0 ≤ q then inf else ninf
  | ninf, fin q => if 0 ≤ q then ninf else inf
  | fin _, inf => fin 0
  | fin _, ninf => fin 0
  | fin a, fin b =>
      if b = 0 then (if a = 0 then nan else if 0 < a then inf else ninf)
      else fin (a / b)

/-- IEEE strict less-than as a boolean: any comparison with `nan` is false. -/
def blt : FP → FP → Bool
  | nan, _ => false
  | _, nan => false
  | ninf, ninf => false
  | ninf, _ => true
  | _, ninf => false
  | inf, _ => false
  | fin _, inf => true
  | fin a, fin b => decide (a < b)

/-- IEEE less-or-equal as a boolean: any comparison with `nan` is false. -/
def ble : FP → FP → Bool
  | nan, _ => false
  | _, nan => false
  | ninf, _ => true
  | _, ninf => false
  | _, inf => true
  | inf, _ => false
  | fin a, fin b => decide (a ≤ b)

/-- Rust `f64::max`, which ignores `nan` operands. -/
def max (a b : FP) : FP :=
  match a, b with
  | nan, _ => b
  | _, nan => a
  | _, _ => if ble a b then b else a

/-- Rust `f64::min`, which ignores `nan` operands. -/
def min (a b : FP) : FP :=
  match a, b with
  | nan, _ => b
  | _, nan => a
  | _, _ => if ble a b then a else b

/-- `f64::is_finite`. -/
def isFinite : FP → Bool
  | fin _ => true
  | _ => false

/-- `f64::abs`. -/
def abs : FP → FP
  | nan => nan
  | inf => inf
  | ninf => inf
  | fin q => fin |q|

/-- Exact square root of a rational when it is a perfect square; placeholder
value 0 otherwise (no theorem depends on the placeholder). -/
def ratSqrt (q : ℚ) : ℚ :=
  let sn := Nat.sqrt q.num.toNat
  let sd := Nat.sqrt q.den
  if sn * sn = q.num.toNat ∧ sd * sd = q.den then (sn : ℚ) / (sd : ℚ) else 0

/-- `f64::sqrt`: `nan` on negative inputs, exact on perfect squares. -/
def sqrt : FP → FP
  | nan => nan
  | inf => inf
  | ninf => nan
  | fin q => if q < 0 then nan else fin (ratSqrt q)

instance : Add FP := ⟨add⟩
instance : Mul FP := ⟨mul⟩
instance : Div FP := ⟨div⟩
instance : Neg FP := ⟨neg⟩

/-- Rust subtraction `a - b`, identical to `a + (-b)` in IEEE arithmetic. -/
def sub (a b : FP) : FP := a + (-b)

instance : Sub FP := ⟨sub⟩

/-- `f64::recip`. -/
def recip (a : FP) : FP := fin 1 / a

/-- Rust `f64::clamp lo hi` (callers guarantee `lo ≤ hi`). -/
def clamp (x lo hi : FP) : FP :=
  if blt x lo then lo else if blt hi x then hi else x

theorem fin_add_fin (a b : ℚ) : (fin a) + (fin b) = fin (a + b) := rfl

theorem fin_mul_fin (a b : ℚ) : (fin a) * (fin b) = fin (a * b) := rfl

theorem fin_sub_fin (a b : ℚ) : (fin a) - (fin b) = fin (a - b) := by
  show sub (fin a) (fin b) = fin (a - b)
  show add (fin a) (neg (fin b)) = fin (a - b)
  simp [neg, add]
  ring

theorem fin_div_fin (a b : ℚ) (hb : b ≠ 0) : (fin a) / (fin b) = fin (a / b) := by
  show div (fin a) (fin b) = fin (a / b)
  simp [div, hb]

theorem blt_fin_fin (a b : ℚ) : blt (fin a) (fin b) = decide (a < b) := rfl

theorem ble_fin_fin (a b : ℚ) : ble (fin a) (fin b) = decide (a ≤ b) := rfl

theorem isFinite_fin (a : ℚ) : isFinite (fin a) = true := rfl

/-- A strict order in one direction refutes the reflected non-strict order. -/
theorem ble_eq_false_of_blt (a b : FP) (h : blt a b = true) : ble b a = false := by
  cases a <;> cases b <;> simp_all [blt, ble]

end FP

/-- 2-component vector of `FP` values, mirroring `math::Vec2`. -/
structure Vec2 where
  x : FP
  y : FP
deriving DecidableEq, Repr

namespace Vec2

/-- `Vec2::ZERO`. -/
def zero : Vec2 := ⟨FP.fin 0, FP.fin 0⟩

instance : Inhabited Vec2 := ⟨zero⟩

/-- Componentwise addition. -/
def add (a b : Vec2) : Vec2 := ⟨a.x + b.x, a.y + b.y⟩

/-- Componentwise subtraction. -/
def sub (a b : Vec2) : Vec2 := ⟨a.x - b.x, a.y - b.y⟩

/-- Scalar multiplication. -/
def smul (a : Vec2) (s : FP) : Vec2 := ⟨a.x * s, a.y * s⟩

/-- Scalar division. -/
def sdiv (a : Vec2) (s : FP) : Vec2 := ⟨a.x / s, a.y / s⟩

instance : Add Vec2 := ⟨add⟩
instance : Sub Vec2 := ⟨sub⟩
instance : HMul Vec2 FP Vec2 := ⟨smul⟩
instance : HDiv Vec2 FP Vec2 := ⟨sdiv⟩

/-- Dot product. -/
def dot (a b : Vec2) : FP := a.x * b.x + a.y * b.y

/-- Squared Euclidean norm. -/
def normSquared (a : Vec2) : FP := a.dot a

/-- Euclidean norm. -/
def norm (a : Vec2) : FP := a.normSquared.sqrt

/-- Both components finite. -/
def isFinite (a : Vec2) : Bool := a.x.isFinite && a.y.isFinite

end Vec2

/-- `config::IntegratorKind`. -/
inductive IntegratorKind where
  | semiImplicitEuler
  | velocityVerlet
  | rk4
deriving DecidableEq, Repr

/-- `config::CollisionMode`. -/
inductive CollisionMode where
  | elastic
  | inelasticMerge
  | ignore
deriving DecidableEq, Repr

/-- `config::DtPolicy`. -/
inductive DtPolicy where
  | fixed
  | adaptive
deriving DecidableEq, Repr

/-- `config::GravitySolver`. -/
inductive GravitySolver where
  | pairwise
  | barnesHut
  | auto
deriving DecidableEq, Repr

/-- `config::EngineConfig`. -/
structure EngineConfig where
  gravityConstant : FP
  softeningEpsilon : FP
  dt : FP
  dtPolicy : DtPolicy
  integrator : IntegratorKind
  collisionMode : CollisionMode
  deterministic : Bool
  gravitySolver : GravitySolver
  barnesHutTheta : FP
  barnesHutThreshold : ℕ
deriving DecidableEq, Repr

/-- `errors::EngineError`. -/
inductive EngineError where
  | invalidConfig : String → EngineError
  | invalidBody : String → EngineError
  | duplicateBodyId : String → EngineError
  | bodyNotFound : String → EngineError
  | numericalInstability : String → EngineError
  | schemaValidationFailed : String → EngineError
  | unsupportedFeature : String → EngineError
deriving DecidableEq, Repr

/-- `types::BodyMetadata`. -/
structure BodyMetadata where
  label : Option String
  kind : Option String
  color : Option String
deriving DecidableEq, Repr

/-- `types::Body`. -/
structure Body where
  id : String
  mass : FP
  radius : FP
  position : Vec2
  velocity : Vec2
  alive : Bool
  metadata : Option BodyMetadata
deriving DecidableEq, Repr

instance : Inhabited Body :=
  ⟨⟨"", FP.fin 0, FP.fin 0, Vec2.zero, Vec2.zero, false, none⟩⟩

/-- `Body::validate`. -/
def Body.validate (b : Body) : Except EngineError Unit :=
  if b.id.trim.isEmpty then
    .error (.invalidBody ("id must not be empty"))
  else if !b.mass.isFinite || FP.ble b.mass (FP.fin 0) then
    .error (.invalidBody ("mass must be finite and positive"))
  else if !b.radius.isFinite || FP.ble b.radius (FP.fin 0) then
    .error (.invalidBody ("radius must be finite and positive"))
  else if !b.position.isFinite then
    .error (.invalidBody ("position must be finite"))
  else if !b.velocity.isFinite then
    .error (.invalidBody ("velocity must be finite"))
  else
    .ok ()

/-- `types::BodyUpdate`. -/
structure BodyUpdate where
  id : String
  mass : Option FP
  radius : Option FP
  position : Option Vec2
  velocity : Option Vec2
  alive : Option Bool
  metadata : Option BodyMetadata
deriving DecidableEq, Repr

/-- `types::BodyEdit`. -/
inductive BodyEdit where
  | create : Body → BodyEdit
  | update : BodyUpdate → BodyEdit
  | delete : String → BodyEdit
deriving DecidableEq, Repr

/-- `types::StepSummary`. -/
structure StepSummary where
  ticksApplied : ℕ
  finalTick : ℕ
  simTime : FP
  collisionEvents : ℕ
  mergedEvents : ℕ
  warnings : List String
  pairwiseTicks : ℕ
  barnesHutTicks : ℕ
  stepWallTimeMicros : ℕ
  averageTickMicros : ℕ
  maxBodyCount : ℕ
  lastSolverMode : String
deriving DecidableEq, Repr

/-- `StepSummary::default`. -/
def StepSummary.default : StepSummary :=
  { ticksApplied := 0
    finalTick := 0
    simTime := FP.fin 0
    collisionEvents := 0
    mergedEvents := 0
    warnings := []
    pairwiseTicks := 0
    barnesHutTicks := 0
    stepWallTimeMicros := 0
    averageTickMicros := 0
    maxBodyCount := 0
    lastSolverMode := "pairwise" }

/-- `solver::SolverRuntimeMode`. -/
inductive SolverRuntimeMode where
  | pairwise
  | barnesHut
deriving DecidableEq, Repr

/-- `solver::SolverStats`. -/
structure SolverStats where
  mode : SolverRuntimeMode
deriving DecidableEq, Repr

/-- Number of alive bodies, as computed by `bodies.iter().filter(alive).count()`. -/
def aliveCount (bodies : List Body) : ℕ := (bodies.filter (·.alive)).length

/-- `solver::choose_runtime_mode`. -/
def chooseRuntimeMode (aliveBodies : ℕ) (config : EngineConfig) : SolverRuntimeMode :=
  match config.gravitySolver with
  | .pairwise => .pairwise
  | .barnesHut => if 2 ≤ aliveBodies then .barnesHut else .pairwise
  | .auto => if config.barnesHutThreshold ≤ aliveBodies then .barnesHut else .pairwise

/-- `solver::pairwise_accelerations_from_positions`: the exact O(N^2) kernel,
iterating ordered index pairs i < j and accumulating with the third law. -/
def pairwiseAccelerationsFromPositions (bodies : List Body) (positions : List Vec2)
    (gravityConstant softeningEpsilon : FP) : List Vec2 :=
  let count := bodies.length
  let epsilon2 := softeningEpsilon * softeningEpsilon
  (List.range count).foldl
    (fun accOuter i =>
      if !(bodies.getD i default).alive then accOuter
      else
        (List.range' (i + 1) (count - (i + 1))).foldl
          (fun acc j =>
            if !(bodies.getD j default).alive then acc
            else
              let delta := positions.getD j Vec2.zero - positions.getD i Vec2.zero
              let distSq := delta.normSquared + epsilon2
              if FP.ble distSq (FP.fin 0) then acc
              else
                let invDist := distSq.sqrt.recip
                let invDist3 := invDist * invDist * invDist
                let scale := gravityConstant * invDist3
                let acc2 := acc.set i
                  (acc.getD i Vec2.zero + delta * (scale * (bodies.getD j default).mass))
                acc2.set j
                  (acc2.getD j Vec2.zero - delta * (scale * (bodies.getD i default).mass)))
          accOuter)
    (List.replicate count Vec2.zero)

/-- `solver::QuadNode`: center, half size, accumulated mass, center of mass,
body count, at most one stored body index, four child slots. -/
inductive QuadNode where
  | node (center : Vec2) (halfSize : FP) (mass : FP) (com : Vec2) (count : ℕ)
      (bodyIndex : Option ℕ) (c0 c1 c2 c3 : Option QuadNode)
deriving Repr

namespace QuadNode

/-- Center of the cell. -/
def center : QuadNode → Vec2
  | node c _ _ _ _ _ _ _ _ _ => c

/-- Half size of the cell. -/
def halfSize : QuadNode → FP
  | node _ h _ _ _ _ _ _ _ _ => h

/-- Accumulated mass of the subtree. -/
def mass : QuadNode → FP
  | node _ _ m _ _ _ _ _ _ _ => m

/-- Center of mass of the subtree. -/
def com : QuadNode → Vec2
  | node _ _ _ cm _ _ _ _ _ _ => cm

/-- Number of bodies accumulated into the subtree. -/
def count : QuadNode → ℕ
  | node _ _ _ _ cnt _ _ _ _ _ => cnt

/-- Stored body index (meaningful only for single-body leaves). -/
def bodyIndex : QuadNode → Option ℕ
  | node _ _ _ _ _ bi _ _ _ _ => bi

/-- Child slot `k` of the node (`k < 4`). -/
def child : QuadNode → ℕ → Option QuadNode
  | node _ _ _ _ _ _ c0 c1 c2 c3, k =>
      if k = 0 then c0 else if k = 1 then c1 else if k = 2 then c2 else c3

/-- Replace the aggregate statistics and the stored body index. -/
def withStats : QuadNode → ℕ → FP → Vec2 → Option ℕ → QuadNode
  | node c h _ _ _ _ c0 c1 c2 c3, cnt, m, cm, bi => node c h m cm cnt bi c0 c1 c2 c3

/-- Replace the stored body index. -/
def withBodyIndex : QuadNode → Option ℕ → QuadNode
  | node c h m cm cnt _ c0 c1 c2 c3, bi => node c h m cm cnt bi c0 c1 c2 c3

/-- Replace child slot `k`. -/
def setChild : QuadNode → ℕ → QuadNode → QuadNode
  | node c h m cm cnt bi c0 c1 c2 c3, k, x =>
      if k = 0 then node c h m cm cnt bi (some x) c1 c2 c3
      else if k = 1 then node c h m cm cnt bi c0 (some x) c2 c3
      else if k = 2 then node c h m cm cnt bi c0 c1 (some x) c3
      else node c h m cm cnt bi c0 c1 c2 (some x)

/-- `QuadNode::new`. -/
def new (center : Vec2) (halfSize : FP) : QuadNode :=
  node center halfSize (FP.fin 0) Vec2.zero 0 none none none none none

/-- `QuadNode::is_leaf`: no child slot is occupied. -/
def isLeaf : QuadNode → Bool
  | node _ _ _ _ _ _ c0 c1 c2 c3 => c0.isNone && c1.isNone && c2.isNone && c3.isNone

/-- `solver::child_center`. -/
def childCenter (center : Vec2) (childHalf : FP) (index : ℕ) : Vec2 :=
  let xOffset := if index % 2 = 0 then -childHalf else childHalf
  let yOffset := if index < 2 then -childHalf else childHalf
  ⟨center.x + xOffset, center.y + yOffset⟩

/-- `QuadNode::ensure_children`: a no-op on internal nodes; on a leaf,
populate the four child slots with empty cells of half the size. -/
def ensureChildren (n : QuadNode) : QuadNode :=
  if !n.isLeaf then n
  else
    match n with
    | node c h m cm cnt bi _ _ _ _ =>
        let childHalf := h * FP.fin (1/2)
        node c h m cm cnt bi
          (some (new (childCenter c childHalf 0) childHalf))
          (some (new (childCenter c childHalf 1) childHalf))
          (some (new (childCenter c childHalf 2) childHalf))
          (some (new (childCenter c childHalf 3) childHalf))

/-- `QuadNode::child_index`: quadrant of a position relative to the center. -/
def childIndex (n : QuadNode) (position : Vec2) : ℕ :=
  (if FP.ble n.center.x position.x then 1 else 0) +
    (if FP.ble n.center.y position.y then 2 else 0)

/-- `QuadNode::insert_into_child`, parametrized by the recursive insertion
into the chosen child (the fuel-indexed recursion supplies it). -/
def insertIntoChildWith (ins : QuadNode → QuadNode) (n : QuadNode) (position : Vec2) :
    QuadNode :=
  let n2 := n.ensureChildren
  let k := n2.childIndex position
  match n2.child k with
  | some c => n2.setChild k (ins c)
  | none => n2

/-- `QuadNode::insert`.  The fuel parameter bounds the recursion depth, which
the source bounds through the shrinking half size: on exhaustion the body is
absorbed into the aggregates, exactly like the collapse path of the source. -/
def insert (positions : List Vec2) (masses : List FP) (minHalf : FP) :
    ℕ → QuadNode → ℕ → QuadNode
  | fuel, n, index =>
    let position := positions.getD index Vec2.zero
    let bodyMass := masses.getD index (FP.fin 0)
    if n.count = 0 then
      n.withStats 1 bodyMass position (some index)
    else
      let previousMass := n.mass
      let nextMass := previousMass + bodyMass
      let newCom :=
        if FP.blt (FP.fin 0) nextMass then
          (n.com * previousMass + position * bodyMass) / nextMass
        else n.com
      let n2 := n.withStats (n.count + 1) nextMass newCom n.bodyIndex
      match fuel with
      | 0 => n2
      | fuel + 1 =>
        if n2.isLeaf then
          match n2.bodyIndex with
          | some existingIndex =>
            let existingPos := positions.getD existingIndex Vec2.zero
            let sameSpot :=
              FP.ble (existingPos - position).normSquared (FP.fin (1 / 10 ^ 18))
            if FP.ble n2.halfSize minHalf || sameSpot then
              n2.withBodyIndex none
            else
              let n3 := n2.withBodyIndex none
              let n4 := insertIntoChildWith
                (fun c => insert positions masses minHalf fuel c existingIndex) n3 existingPos
              insertIntoChildWith
                (fun c => insert positions masses minHalf fuel c index) n4 position
          | none => n2
        else
          insertIntoChildWith
            (fun c => insert positions masses minHalf fuel c index) n2 position

/-- `solver::accumulate_force_from_node` (structural recursion on the tree). -/
def accumulateForce (bodyIdx : ℕ) (bodyPosition : Vec2)
    (gravityConstant epsilon2 theta : FP) : QuadNode → Vec2 → Vec2
  | n@(node _ _ _ _ _ _ c0 c1 c2 c3), outAcceleration =>
    if n.count = 0 || FP.ble n.mass (FP.fin 0) then outAcceleration
    else if n.count = 1 && n.bodyIndex = some bodyIdx then outAcceleration
    else
      let delta := n.com - bodyPosition
      let distSq := delta.normSquared + epsilon2
      if FP.ble distSq (FP.fin 0) then outAcceleration
      else
        let distance := distSq.sqrt
        let size := n.halfSize * FP.fin 2
        if n.isLeaf || FP.blt (size / distance) theta then
          let invDist := distance.recip
          let invDist3 := invDist * invDist * invDist
          outAcceleration + delta * (gravityConstant * n.mass * invDist3)
        else
          let a0 := match c0 with
            | some c => accumulateForce bodyIdx bodyPosition gravityConstant epsilon2 theta c outAcceleration
            | none => outAcceleration
          let a1 := match c1 with
            | some c => accumulateForce bodyIdx bodyPosition gravityConstant epsilon2 theta c a0
            | none => a0
          let a2 := match c2 with
            | some c => accumulateForce bodyIdx bodyPosition gravityConstant epsilon2 theta c a1
            | none => a1
          match c3 with
            | some c => accumulateForce bodyIdx bodyPosition gravityConstant epsilon2 theta c a2
            | none => a2

end QuadNode

/-- `solver::build_quadtree`, with the explicit recursion fuel threaded to
`QuadNode.insert`.  The four bounding-box folds mirror the single
min/max-accumulating loop of the source, one accumulator each. -/
def buildQuadtree (fuel : ℕ) (positions : List Vec2) (aliveIndices : List ℕ)
    (masses : List FP) : Option QuadNode :=
  if aliveIndices.isEmpty then none
  else
    let minX := aliveIndices.foldl (fun acc k => FP.min acc (positions.getD k Vec2.zero).x) FP.inf
    let maxX := aliveIndices.foldl (fun acc k => FP.max acc (positions.getD k Vec2.zero).x) FP.ninf
    let minY := aliveIndices.foldl (fun acc k => FP.min acc (positions.getD k Vec2.zero).y) FP.inf
    let maxY := aliveIndices.foldl (fun acc k => FP.max acc (positions.getD k Vec2.zero).y) FP.ninf
    let span := FP.max (FP.max (maxX - minX).abs (maxY - minY).abs) (FP.fin (1 / 10 ^ 6))
    let halfSize := FP.fin (1/2) * span + FP.fin (1 / 10 ^ 6)
    let center : Vec2 := ⟨FP.fin (1/2) * (minX + maxX), FP.fin (1/2) * (minY + maxY)⟩
    let minHalf := FP.max (halfSize * FP.fin (1 / 10 ^ 6)) (FP.fin (1 / 10 ^ 9))
    some (aliveIndices.foldl
      (fun n k => QuadNode.insert positions masses minHalf fuel n k)
      (QuadNode.new center halfSize))

/-- Recursion fuel used by the force-evaluation entry point; any value large
enough for the concrete trees at hand works, and the aggregate statistics are
fuel independent. -/
def quadFuel : ℕ := 4096

/-- `solver::barnes_hut_accelerations_from_positions`. -/
def barnesHutAccelerationsFromPositions (bodies : List Body) (positions : List Vec2)
    (gravityConstant softeningEpsilon theta : FP) : List Vec2 :=
  let count := bodies.length
  let accelerations := List.replicate count Vec2.zero
  let aliveIndices := (List.range count).filter (fun i => (bodies.getD i default).alive)
  if aliveIndices.length < 2 then accelerations
  else
    let masses := bodies.map (·.mass)
    match buildQuadtree quadFuel positions aliveIndices masses with
    | none => accelerations
    | some root =>
      let epsilon2 := softeningEpsilon * softeningEpsilon
      aliveIndices.foldl
        (fun accs index =>
          accs.set index
            (QuadNode.accumulateForce index (positions.getD index Vec2.zero)
              gravityConstant epsilon2 theta root Vec2.zero))
        accelerations

/-- `solver::compute_accelerations_with_config`. -/
def computeAccelerationsWithConfig (bodies : List Body) (positions : List Vec2)
    (config : EngineConfig) : List Vec2 × SolverStats :=
  match chooseRuntimeMode (aliveCount bodies) config with
  | .pairwise =>
      (pairwiseAccelerationsFromPositions bodies positions
        config.gravityConstant config.softeningEpsilon, ⟨.pairwise⟩)
  | .barnesHut =>
      (barnesHutAccelerationsFromPositions bodies positions
        config.gravityConstant config.softeningEpsilon config.barnesHutTheta, ⟨.barnesHut⟩)

/-- `solver::compute_accelerations`. -/
def computeAccelerations (bodies : List Body) (config : EngineConfig) :
    List Vec2 × SolverStats :=
  computeAccelerationsWithConfig bodies (bodies.map (·.position)) config

/-- `integrator::IntegratorStepStats`. -/
structure IntegratorStepStats where
  usedBarnesHut : Bool
  dtUsed : FP
deriving DecidableEq, Repr

/-- `integrator::effective_dt`. -/
def effectiveDt (bodies : List Body) (config : EngineConfig) : FP :=
  if config.dtPolicy ≠ .adaptive then config.dt
  else
    let maxSpeed := (bodies.filter (·.alive)).foldl
      (fun acc b => FP.max acc b.velocity.norm) (FP.fin 0)
    let minDistance := (List.range bodies.length).foldl
      (fun accOuter i =>
        if !(bodies.getD i default).alive then accOuter
        else
          (List.range' (i + 1) (bodies.length - (i + 1))).foldl
            (fun acc j =>
              if !(bodies.getD j default).alive then acc
              else
                let distance :=
                  ((bodies.getD j default).position - (bodies.getD i default).position).norm
                if FP.blt (FP.fin 0) distance then FP.min acc distance else acc)
            accOuter)
      FP.inf
    if !minDistance.isFinite || maxSpeed = FP.fin 0 then config.dt
    else
      let suggested := FP.fin (1/20) * minDistance / maxSpeed
      suggested.clamp (config.dt * FP.fin (1/20)) config.dt

/-- `integrator::ensure_finite_body`. -/
def ensureFiniteBody (b : Body) : Option EngineError :=
  if !b.position.isFinite || !b.velocity.isFinite then
    some (.numericalInstability ("body produced non-finite state"))
  else none

/-- The common commit loop of the integrators: update each alive body with
the indexed update function and stop at the first non-finite result, leaving
the already-committed updates and the failing body in place (the Rust `?`
inside the `for` loop). -/
def commitBodies (f : ℕ → Body → Body) : ℕ → List Body → List Body × Option EngineError
  | _, [] => ([], none)
  | i, b :: rest =>
    if b.alive then
      let b2 := f i b
      match ensureFiniteBody b2 with
      | some err => (b2 :: rest, some err)
      | none =>
        let (tail, err) := commitBodies f (i + 1) rest
        (b2 :: tail, err)
    else
      let (tail, err) := commitBodies f (i + 1) rest
      (b :: tail, err)

/-- `integrator::semi_implicit_euler_step`; the boolean reports whether the
Barnes-Hut solver was used. -/
def semiImplicitEulerStep (bodies : List Body) (config : EngineConfig) (dt : FP) :
    List Body × Except EngineError Bool :=
  let (accelerations, stats) := computeAccelerations bodies config
  let (bodies2, err) := commitBodies
    (fun i b =>
      let v := b.velocity + accelerations.getD i Vec2.zero * dt
      { b with velocity := v, position := b.position + v * dt })
    0 bodies
  match err with
  | some e => (bodies2, .error e)
  | none => (bodies2, .ok (decide (stats.mode = .barnesHut)))

/-- `integrator::velocity_verlet_step`. -/
def velocityVerletStep (bodies : List Body) (config : EngineConfig) (dt : FP) :
    List Body × Except EngineError Bool :=
  let originalPositions := bodies.map (·.position)
  let (accelerations0, stats0) :=
    computeAccelerationsWithConfig bodies originalPositions config
  let predictedPositions := (List.range bodies.length).map
    (fun i =>
      let b := bodies.getD i default
      if b.alive then
        b.position + b.velocity * dt + accelerations0.getD i Vec2.zero * (FP.fin (1/2) * dt * dt)
      else originalPositions.getD i Vec2.zero)
  let (accelerations1, stats1) :=
    computeAccelerationsWithConfig bodies predictedPositions config
  let (bodies2, err) := commitBodies
    (fun i b =>
      { b with
          position := predictedPositions.getD i Vec2.zero
          velocity := b.velocity +
            (accelerations0.getD i Vec2.zero + accelerations1.getD i Vec2.zero) *
              (FP.fin (1/2) * dt) })
    0 bodies
  match err with
  | some e => (bodies2, .error e)
  | none => (bodies2, .ok (decide (stats0.mode = .barnesHut) || decide (stats1.mode = .barnesHut)))

/-- `integrator::rk4_step`. -/
def rk4Step (bodies : List Body) (config : EngineConfig) (dt : FP) :
    List Body × Except EngineError Bool :=
  let count := bodies.length
  let p0 := bodies.map (·.position)
  let v0 := bodies.map (·.velocity)
  let (a1, stats1) := computeAccelerationsWithConfig bodies p0 config
  let k1p := v0
  let k1v := a1
  let p2 := (List.range count).map
    (fun i => p0.getD i Vec2.zero + k1p.getD i Vec2.zero * (FP.fin (1/2) * dt))
  let v2 := (List.range count).map
    (fun i => v0.getD i Vec2.zero + k1v.getD i Vec2.zero * (FP.fin (1/2) * dt))
  let (k2v, stats2) := computeAccelerationsWithConfig bodies p2 config
  let k2p := v2
  let p3 := (List.range count).map
    (fun i => p0.getD i Vec2.zero + k2p.getD i Vec2.zero * (FP.fin (1/2) * dt))
  let v3 := (List.range count).map
    (fun i => v0.getD i Vec2.zero + k2v.getD i Vec2.zero * (FP.fin (1/2) * dt))
  let (k3v, stats3) := computeAccelerationsWithConfig bodies p3 config
  let k3p := v3
  let p4 := (List.range count).map
    (fun i => p0.getD i Vec2.zero + k3p.getD i Vec2.zero * dt)
  let v4 := (List.range count).map
    (fun i => v0.getD i Vec2.zero + k3v.getD i Vec2.zero * dt)
  let (k4v, stats4) := computeAccelerationsWithConfig bodies p4 config
  let k4p := v4
  let (bodies2, err) := commitBodies
    (fun i b =>
      let dp := (k1p.getD i Vec2.zero + k2p.getD i Vec2.zero * FP.fin 2 +
        k3p.getD i Vec2.zero * FP.fin 2 + k4p.getD i Vec2.zero) * (dt / FP.fin 6)
      let dv := (k1v.getD i Vec2.zero + k2v.getD i Vec2.zero * FP.fin 2 +
        k3v.getD i Vec2.zero * FP.fin 2 + k4v.getD i Vec2.zero) * (dt / FP.fin 6)
      { b with position := b.position + dp, velocity := b.velocity + dv })
    0 bodies
  match err with
  | some e => (bodies2, .error e)
  | none =>
      (bodies2, .ok (decide (stats1.mode = .barnesHut) || decide (stats2.mode = .barnesHut) ||
        decide (stats3.mode = .barnesHut) || decide (stats4.mode = .barnesHut)))

/-- `integrator::integrate_step`.  Returns the (possibly partially mutated)
body list together with the result, mirroring in-place mutation plus `?`. -/
def integrateStep (bodies : List Body) (config : EngineConfig) :
    List Body × Except EngineError IntegratorStepStats :=
  let dt := effectiveDt bodies config
  let (bodies2, r) :=
    match config.integrator with
    | .semiImplicitEuler => semiImplicitEulerStep bodies config dt
    | .velocityVerlet => velocityVerletStep bodies config dt
    | .rk4 => rk4Step bodies config dt
  match r with
  | .error e => (bodies2, .error e)
  | .ok usedBarnesHut => (bodies2, .ok ⟨usedBarnesHut, dt⟩)

/-- `collision::CollisionStats`. -/
structure CollisionStats where
  collisions : ℕ
  merges : ℕ
deriving DecidableEq, Repr

/-- The zero statistics (`CollisionStats::default`). -/
def CollisionStats.zero : CollisionStats := ⟨0, 0⟩

/-- `collision::apply_inelastic_merge`: combine the pair into the
lower-indexed slot and flip the higher-indexed body to not-alive. -/
def applyInelasticMerge (bodies : List Body) (i j : ℕ) : List Body :=
  let first := bodies.getD i default
  let second := bodies.getD j default
  if !first.alive || !second.alive then bodies
  else
    let totalMass := first.mass + second.mass
    if FP.ble totalMass (FP.fin 0) then bodies
    else
      let mergedPosition :=
        (first.position * first.mass + second.position * second.mass) / totalMass
      let mergedVelocity :=
        (first.velocity * first.mass + second.velocity * second.mass) / totalMass
      let mergedRadius := (first.radius * first.radius + second.radius * second.radius).sqrt
      let first2 := { first with
        mass := totalMass
        position := mergedPosition
        velocity := mergedVelocity
        radius := mergedRadius }
      (bodies.set i first2).set j { second with alive := false }

/-- `collision::apply_elastic_collision`: impulse along the collision normal
when approaching, then positional de-penetration when there is overlap. -/
def applyElasticCollision (bodies : List Body) (i j : ℕ) (delta : Vec2)
    (distance collisionDistance : FP) : List Body :=
  let first := bodies.getD i default
  let second := bodies.getD j default
  if !first.alive || !second.alive then bodies
  else
    let normal := if FP.blt (FP.fin 0) distance then delta / distance else (⟨FP.fin 1, FP.fin 0⟩ : Vec2)
    let relativeVelocity := second.velocity - first.velocity
    let velAlongNormal := relativeVelocity.dot normal
    let (v1, v2) :=
      if FP.ble velAlongNormal (FP.fin 0) then
        let restitution := FP.fin 1
        let inverseMassSum := FP.fin 1 / first.mass + FP.fin 1 / second.mass
        if FP.blt (FP.fin 0) inverseMassSum then
          let impulseScalar := -((FP.fin 1 + restitution) * velAlongNormal) / inverseMassSum
          let impulse := normal * impulseScalar
          (first.velocity - impulse / first.mass, second.velocity + impulse / second.mass)
        else (first.velocity, second.velocity)
      else (first.velocity, second.velocity)
    let overlap := FP.max (collisionDistance - distance) (FP.fin 0)
    let (p1, p2) :=
      if FP.blt (FP.fin 0) overlap then
        let correction := normal * (FP.fin (1/2) * overlap + FP.fin (1 / 10 ^ 9))
        (first.position - correction, second.position + correction)
      else (first.position, second.position)
    (bodies.set i { first with velocity := v1, position := p1 }).set j
      { second with velocity := v2, position := p2 }

/-- One candidate pair inside the double loop of `resolve_collisions`:
checks liveness of the second body, the contact condition, and applies the
configured response. -/
def collisionPairStep (mode : CollisionMode) (i j : ℕ)
    (st : List Body × CollisionStats) : List Body × CollisionStats :=
  let (bodies, stats) := st
  if !(bodies.getD j default).alive then st
  else
    let delta := (bodies.getD j default).position - (bodies.getD i default).position
    let distance := delta.norm
    let collisionDistance := (bodies.getD i default).radius + (bodies.getD j default).radius
    if FP.blt collisionDistance distance then st
    else
      let stats2 := { stats with collisions := stats.collisions + 1 }
      match mode with
      | .elastic => (applyElasticCollision bodies i j delta distance collisionDistance, stats2)
      | .inelasticMerge =>
          (applyInelasticMerge bodies i j, { stats2 with merges := stats2.merges + 1 })
      | .ignore => (bodies, stats2)

/-- The ordered double loop of `resolve_collisions` over the current body
storage (the count is fixed before the pass begins). -/
def collisionPass (bodies : List Body) (mode : CollisionMode) :
    List Body × CollisionStats :=
  let count := bodies.length
  (List.range count).foldl
    (fun st i =>
      if !(st.1.getD i default).alive then st
      else (List.range' (i + 1) (count - (i + 1))).foldl
        (fun st2 j => collisionPairStep mode i j st2) st)
    (bodies, CollisionStats.zero)

/-- `collision::resolve_collisions`: skip on Ignore, run the pair pass, and
in merge mode compact the vector by retaining only alive bodies. -/
def resolveCollisions (bodies : List Body) (mode : CollisionMode) :
    List Body × CollisionStats :=
  if mode = .ignore then (bodies, CollisionStats.zero)
  else
    let (bodies2, stats) := collisionPass bodies mode
    if mode = .inelasticMerge then (bodies2.filter (·.alive), stats)
    else (bodies2, stats)

/-- `engine::SimulationEngine`: the orchestrator state. -/
structure SimulationEngine where
  config : EngineConfig
  bodies : List Body
  tick : ℕ
  simTime : FP
deriving DecidableEq, Repr

/-- One iteration of the `step` loop without the summary bookkeeping: `none`
reports a failed integration (whose partial mutations `stepLoop` keeps). -/
def advance (e : SimulationEngine) : Option SimulationEngine :=
  match integrateStep e.bodies e.config with
  | (_, .error _) => none
  | (bodies2, .ok stats) =>
      let (bodies3, _) := resolveCollisions bodies2 e.config.collisionMode
      some { e with
        bodies := bodies3
        tick := e.tick + 1
        simTime := e.simTime + stats.dtUsed }

/-- `advance` iterated. -/
def advanceN : ℕ → SimulationEngine → Option SimulationEngine
  | 0, e => some e
  | n + 1, e =>
    match advance e with
    | some e2 => advanceN n e2
    | none => none

/-- The `for _ in 0..ticks` loop of `SimulationEngine::step`, carrying the
summary accumulator; an integration error aborts with the partially mutated
bodies and without advancing tick or sim_time. -/
def stepLoop : ℕ → SimulationEngine → StepSummary →
    SimulationEngine × Except EngineError StepSummary
  | 0, e, summary => (e, .ok summary)
  | n + 1, e, summary =>
    match integrateStep e.bodies e.config with
    | (bodies2, .error err) => ({ e with bodies := bodies2 }, .error err)
    | (bodies2, .ok integrationStats) =>
        let (bodies3, collisionStats) := resolveCollisions bodies2 e.config.collisionMode
        let summary2 := { summary with
          collisionEvents := summary.collisionEvents + collisionStats.collisions
          mergedEvents := summary.mergedEvents + collisionStats.merges
          ticksApplied := summary.ticksApplied + 1
          maxBodyCount := Max.max summary.maxBodyCount bodies3.length }
        let summary3 :=
          if integrationStats.usedBarnesHut then
            { summary2 with
              barnesHutTicks := summary2.barnesHutTicks + 1
              lastSolverMode := "barnesHut" }
          else
            { summary2 with
              pairwiseTicks := summary2.pairwiseTicks + 1
              lastSolverMode := "pairwise" }
        let e2 := { e with
          bodies := bodies3
          tick := e.tick + 1
          simTime := e.simTime + integrationStats.dtUsed }
        stepLoop n e2 summary3

/-- `SimulationEngine::step`.  Returns the mutated engine together with the
result; wall-clock micro timings are modelled as 0. -/
def step (e : SimulationEngine) (ticks : ℕ) :
    SimulationEngine × Except EngineError StepSummary :=
  let summary0 := { StepSummary.default with maxBodyCount := e.bodies.length }
  if ticks = 0 then
    (e, .ok { summary0 with finalTick := e.tick, simTime := e.simTime })
  else
    match stepLoop ticks e summary0 with
    | (e2, .error err) => (e2, .error err)
    | (e2, .ok summary) =>
        if e2.bodies.all (fun b => b.position.isFinite && b.velocity.isFinite) then
          (e2, .ok { summary with finalTick := e2.tick, simTime := e2.simTime })
        else
          (e2, .error (.numericalInstability ("a body produced non-finite values after stepping")))

/-- The field-by-field partial mutation of `SimulationEngine::update_body`. -/
def applyBodyUpdate (b : Body) (u : BodyUpdate) : Body :=
  let b1 := match u.mass with | some m => { b with mass := m } | none => b
  let b2 := match u.radius with | some r => { b1 with radius := r } | none => b1
  let b3 := match u.position with | some p => { b2 with position := p } | none => b2
  let b4 := match u.velocity with | some v => { b3 with velocity := v } | none => b3
  let b5 := match u.alive with | some a => { b4 with alive := a } | none => b4
  match u.metadata with | some md => { b5 with metadata := some md } | none => b5

/-- `SimulationEngine::update_body`: find by id, mutate the permitted fields
in place, then revalidate; a validation failure leaves the mutation. -/
def updateBody (e : SimulationEngine) (u : BodyUpdate) :
    SimulationEngine × Except EngineError Unit :=
  match e.bodies.findIdx? (fun b => b.id = u.id) with
  | none => (e, .error (.bodyNotFound u.id))
  | some i =>
      let b2 := applyBodyUpdate (e.bodies.getD i default) u
      let e2 := { e with bodies := e.bodies.set i b2 }
      match b2.validate with
      | .error err => (e2, .error err)
      | .ok _ => (e2, .ok ())

/-- `SimulationEngine::create_body`. -/
def createBody (e : SimulationEngine) (b : Body) :
    SimulationEngine × Except EngineError Unit :=
  match b.validate with
  | .error err => (e, .error err)
  | .ok _ =>
      if e.bodies.any (fun existing => existing.id = b.id) then
        (e, .error (.duplicateBodyId b.id))
      else ({ e with bodies := e.bodies ++ [b] }, .ok ())

/-- `SimulationEngine::delete_body`. -/
def deleteBody (e : SimulationEngine) (id : String) :
    SimulationEngine × Except EngineError Unit :=
  let remaining := e.bodies.filter (fun b => b.id ≠ id)
  if remaining.length = e.bodies.length then (e, .error (.bodyNotFound id))
  else ({ e with bodies := remaining }, .ok ())

/-- `SimulationEngine::apply_edit`. -/
def applyEdit (e : SimulationEngine) (edit : BodyEdit) :
    SimulationEngine × Except EngineError Unit :=
  match edit with
  | .create b => createBody e b
  | .update u => updateBody e u
  | .delete id => deleteBody e id

/-! Concrete fixtures used by witnesses and counterexamples. -/

/-- A valid fixed-dt configuration: G = 1, no softening, dt = 1, semi-implicit
Euler, collisions ignored, pairwise solver. -/
def cfgFixture : EngineConfig :=
  { gravityConstant := FP.fin 1
    softeningEpsilon := FP.fin 0
    dt := FP.fin 1
    dtPolicy := .fixed
    integrator := .semiImplicitEuler
    collisionMode := .ignore
    deterministic := true
    gravitySolver := .pairwise
    barnesHutTheta := FP.fin (3/5)
    barnesHutThreshold := 256 }

/-- Helper building an alive body without metadata. -/
def mkBody (id : String) (m r : ℚ) (px py vx vy : FP) : Body :=
  { id := id, mass := FP.fin m, radius := FP.fin r
    position := ⟨px, py⟩, velocity := ⟨vx, vy⟩, alive := true, metadata := none }

/-- Engine holding one valid body, at tick 3 and sim time 2. -/
def engineOneBody : SimulationEngine :=
  { config := cfgFixture
    bodies := [mkBody "a" 1 1 (FP.fin 4) (FP.fin 0) (FP.fin 0) (FP.fin 0)]
    tick := 3, simTime := FP.fin 2 }

/-- Engine already holding a body with a non-finite position (as it can after
a previously failed step). -/
def engineNonFinite : SimulationEngine :=
  { config := cfgFixture
    bodies := [mkBody "a" 1 1 FP.inf (FP.fin 0) (FP.fin 0) (FP.fin 0)]
    tick := 7, simTime := FP.fin 3 }

/-- Claim C5 (amended): step with ticks = 0 returns Ok with a summary whose
final_tick and sim_time are the current ones, whose max_body_count is the
current body count (not the zero default), and all remaining fields at their
zero-initialized defaults; the engine is unchanged. -/
theorem c5_step_zero_summary (e : SimulationEngine) :
    step e 0 =
      (e, .ok
        { ticksApplied := 0
          finalTick := e.tick
          simTime := e.simTime
          collisionEvents := 0
          mergedEvents := 0
          warnings := []
          pairwiseTicks := 0
          barnesHutTicks := 0
          stepWallTimeMicros := 0
          averageTickMicros := 0
          maxBodyCount := e.bodies.length
          lastSolverMode := "pairwise" }) := rfl

/-- Claim C5, counterexample to the claim as stated: on an engine holding one
body, step(0) reports max_body_count = 1, not the zero-initialized default 0. -/
theorem c5_counterexample :
    (step engineOneBody 0).2.toOption.map (fun s => s.maxBodyCount) = some 1 ∧
    (1 : ℕ) ≠ 0 := by
  exact ⟨rfl, by omega⟩

/-- Claim C1 (amended): for ticks >= 1, a step that returns Ok leaves every
body (alive or not) with finite position and velocity: the final scan of
`SimulationEngine::step` errors otherwise. -/
theorem c1_step_ok_all_finite (e : SimulationEngine) (ticks : ℕ)
    (e2 : SimulationEngine) (s : StepSummary)
    (hticks : 1 ≤ ticks) (hstep : step e ticks = (e2, .ok s)) :
    ∀ b ∈ e2.bodies, b.position.isFinite = true ∧ b.velocity.isFinite = true := by
  have hne : ticks ≠ 0 := by omega
  unfold step at hstep
  rw [if_neg hne] at hstep
  rcases hloop : stepLoop ticks e { StepSummary.default with maxBodyCount := e.bodies.length }
    with ⟨e3, r⟩
  rw [hloop] at hstep
  cases r with
  | error err => simp at hstep
  | ok summary =>
      dsimp only at hstep
      by_cases hall : e3.bodies.all (fun b => b.position.isFinite && b.velocity.isFinite) = true
      · rw [if_pos hall] at hstep
        have he : e3 = e2 := congrArg Prod.fst hstep
        subst he
        intro b hb
        have hball := List.all_eq_true.mp hall b hb
        exact ⟨(Bool.and_eq_true _ _ ▸ hball).1, (Bool.and_eq_true _ _ ▸ hball).2⟩
      · rw [if_neg hall] at hstep
        simp at hstep

/-- Claim C1, witness: a one-body engine stepped once; the returned body is
finite, obtained through the theorem. -/
theorem c1_witness :
    (mkBody "a" 1 1 (FP.fin 4) (FP.fin 0) (FP.fin 0) (FP.fin 0)).position.isFinite = true ∧
    (mkBody "a" 1 1 (FP.fin 4) (FP.fin 0) (FP.fin 0) (FP.fin 0)).velocity.isFinite = true := by
  have h := c1_step_ok_all_finite engineOneBody 1
    { engineOneBody with tick := 4, simTime := FP.fin 3 }
    { ticksApplied := 1
      finalTick := 4
      simTime := FP.fin 3
      collisionEvents := 0
      mergedEvents := 0
      warnings := []
      pairwiseTicks := 1
      barnesHutTicks := 0
      stepWallTimeMicros := 0
      averageTickMicros := 0
      maxBodyCount := 1
      lastSolverMode := "pairwise" }
    (by omega) (by with_unfolding_all rfl)
  exact h _ (by simp [engineOneBody])

/-- Claim C1, counterexample to the ticks = 0 extension of the claim: on an
engine already holding a non-finite body, step(0) succeeds and the non-finite
body is still there, so step can succeed while leaving a non-finite body. -/
theorem c1_counterexample :
    (step engineNonFinite 0).2.toOption.isSome = true ∧
    ((step engineNonFinite 0).1.bodies.getD 0 default).position.isFinite = false := by
  exact ⟨rfl, rfl⟩

/-- Every failure of `Body::validate` is an invalid-body error. -/
theorem validate_error_kind (b : Body) (err : EngineError) (h : b.validate = .error err) :
    ∃ msg, err = .invalidBody msg := by
  unfold Body.validate at h
  repeat' split at h
  all_goals simp_all
  all_goals exact ⟨_, h.symm⟩

/-- Claim C9: an Update edit that finds its body but whose mutated body fails
validation returns the invalid-body error while keeping the partially applied
mutation in the engine. -/
theorem c9_update_keeps_partial_mutation (e : SimulationEngine) (u : BodyUpdate)
    (i : ℕ) (err : EngineError)
    (hfind : e.bodies.findIdx? (fun b => b.id = u.id) = some i)
    (hval : (applyBodyUpdate (e.bodies.getD i default) u).validate = .error err) :
    applyEdit e (.update u) =
      ({ e with bodies := e.bodies.set i (applyBodyUpdate (e.bodies.getD i default) u) },
        .error err) ∧
    ∃ msg, err = .invalidBody msg := by
  refine ⟨?_, validate_error_kind _ _ hval⟩
  simp only [applyEdit, updateBody, hfind, hval]

/-- Claim C9, witness: setting a mass to -1 on a valid one-body engine fails
validation but the stored body keeps the new mass. -/
theorem c9_witness :
    (applyEdit engineOneBody
        (.update { id := "a", mass := some (FP.fin (-1)), radius := none, position := none,
                   velocity := none, alive := none, metadata := none })).2 =
      .error (.invalidBody ("mass must be finite and positive")) ∧
    ((applyEdit engineOneBody
        (.update { id := "a", mass := some (FP.fin (-1)), radius := none, position := none,
                   velocity := none, alive := none, metadata := none })).1.bodies.getD 0
          default).mass = FP.fin (-1) := by
  have h := c9_update_keeps_partial_mutation engineOneBody
    { id := "a", mass := some (FP.fin (-1)), radius := none, position := none,
      velocity := none, alive := none, metadata := none }
    0 (.invalidBody ("mass must be finite and positive"))
    (by with_unfolding_all rfl) (by with_unfolding_all rfl)
  rw [h.1]
  exact ⟨rfl, by with_unfolding_all rfl⟩

/-- Reading back the lower index of a doubly-set list. -/
theorem getD_set_set_lower {l : List Body} {i j : ℕ} (a b : Body)
    (hij : i ≠ j) (hi : i < l.length) :
    ((l.set i a).set j b).getD i default = a := by
  rw [List.getD_eq_getElem?_getD, List.getElem?_set_ne (by omega),
    List.getElem?_set_self (by simpa using hi)]
  rfl

/-- Reading back the higher index of a doubly-set list. -/
theorem getD_set_set_upper {l : List Body} {i j : ℕ} (a b : Body)
    (hj : j < l.length) :
    ((l.set i a).set j b).getD j default = b := by
  rw [List.getD_eq_getElem?_getD, List.getElem?_set_self (by simpa using hj)]
  rfl

/-- Claim C3: a colliding alive pair processed in merge mode is combined into
slot i with summed mass, mass-weighted position and velocity and
area-additive radius, slot j is flipped to not-alive; and the merge pass is
followed by a compaction that keeps exactly the alive bodies in order. -/
theorem c3_inelastic_merge (bodies : List Body) (i j : ℕ)
    (hij : i < j) (hj : j < bodies.length)
    (hai : (bodies.getD i default).alive = true)
    (haj : (bodies.getD j default).alive = true)
    (hmass : FP.blt (FP.fin 0)
      ((bodies.getD i default).mass + (bodies.getD j default).mass) = true) :
    (applyInelasticMerge bodies i j =
      (bodies.set i
        { bodies.getD i default with
            mass := (bodies.getD i default).mass + (bodies.getD j default).mass
            position := ((bodies.getD i default).position * (bodies.getD i default).mass +
                (bodies.getD j default).position * (bodies.getD j default).mass) /
              ((bodies.getD i default).mass + (bodies.getD j default).mass)
            velocity := ((bodies.getD i default).velocity * (bodies.getD i default).mass +
                (bodies.getD j default).velocity * (bodies.getD j default).mass) /
              ((bodies.getD i default).mass + (bodies.getD j default).mass)
            radius := ((bodies.getD i default).radius * (bodies.getD i default).radius +
                (bodies.getD j default).radius * (bodies.getD j default).radius).sqrt }).set j
        { bodies.getD j default with alive := false }) ∧
    (∀ bs : List Body,
      (resolveCollisions bs .inelasticMerge).1 =
        ((collisionPass bs .inelasticMerge).1).filter (·.alive) ∧
      ((resolveCollisions bs .inelasticMerge).1).Sublist
        ((collisionPass bs .inelasticMerge).1)) := by
  constructor
  · have hble := FP.ble_eq_false_of_blt _ _ hmass
    simp only [applyInelasticMerge, hai, haj, hble, Bool.not_true, Bool.or_self,
      Bool.false_eq_true, if_false]
  · intro bs
    unfold resolveCollisions
    rcases hpass : collisionPass bs .inelasticMerge with ⟨bs2, st⟩
    simp [hpass, List.filter_sublist]

/-- Claim C3, witness: masses 2 and 3 merge into mass 5 with the
mass-weighted position and velocity and radius sqrt(9 + 16) = 5. -/
theorem c3_witness :
    applyInelasticMerge
        [mkBody "a" 2 3 (FP.fin 0) (FP.fin 0) (FP.fin 1) (FP.fin 0),
         mkBody "b" 3 4 (FP.fin (1/2)) (FP.fin 0) (FP.fin (-(1/2))) (FP.fin 0)] 0 1 =
      [{ mkBody "a" 2 3 (FP.fin 0) (FP.fin 0) (FP.fin 1) (FP.fin 0) with
          mass := FP.fin 5
          position := ⟨FP.fin (3/10), FP.fin 0⟩
          velocity := ⟨FP.fin (1/10), FP.fin 0⟩
          radius := FP.fin 5 },
       { mkBody "b" 3 4 (FP.fin (1/2)) (FP.fin 0) (FP.fin (-(1/2))) (FP.fin 0) with
          alive := false }] := by
  have h := (c3_inelastic_merge
    [mkBody "a" 2 3 (FP.fin 0) (FP.fin 0) (FP.fin 1) (FP.fin 0),
     mkBody "b" 3 4 (FP.fin (1/2)) (FP.fin 0) (FP.fin (-(1/2))) (FP.fin 0)] 0 1
    (by omega) (by simp) (by with_unfolding_all rfl) (by with_unfolding_all rfl)
    (by with_unfolding_all rfl)).1
  rw [h]
  with_unfolding_all rfl

/-- Claim C4 (amended): for a processed elastic pair, the collision normal,
the impulse condition and magnitude, and the de-penetration are as the claim
states, except that the positional translation happens only when the overlap
is strictly positive; both bodies stay alive. -/
theorem c4_elastic_collision (bodies : List Body) (i j : ℕ) (delta : Vec2)
    (distance collisionDistance : FP) (mi mj : ℚ)
    (hij : i < j) (hj : j < bodies.length)
    (hai : (bodies.getD i default).alive = true)
    (haj : (bodies.getD j default).alive = true)
    (hmi : (bodies.getD i default).mass = FP.fin mi) (hmi0 : 0 < mi)
    (hmj : (bodies.getD j default).mass = FP.fin mj) (hmj0 : 0 < mj) :
    (applyElasticCollision bodies i j delta distance collisionDistance =
      (bodies.set i
        { bodies.getD i default with
            velocity :=
              if FP.ble (((bodies.getD j default).velocity -
                  (bodies.getD i default).velocity).dot
                    (if FP.blt (FP.fin 0) distance then delta / distance
                     else (⟨FP.fin 1, FP.fin 0⟩ : Vec2))) (FP.fin 0) then
                (bodies.getD i default).velocity -
                  ((if FP.blt (FP.fin 0) distance then delta / distance
                    else (⟨FP.fin 1, FP.fin 0⟩ : Vec2)) *
                    (-((FP.fin 1 + FP.fin 1) *
                        (((bodies.getD j default).velocity -
                          (bodies.getD i default).velocity).dot
                            (if FP.blt (FP.fin 0) distance then delta / distance
                             else (⟨FP.fin 1, FP.fin 0⟩ : Vec2)))) /
                      (FP.fin 1 / (bodies.getD i default).mass +
                        FP.fin 1 / (bodies.getD j default).mass))) /
                    (bodies.getD i default).mass
              else (bodies.getD i default).velocity
            position :=
              if FP.blt (FP.fin 0) (FP.max (collisionDistance - distance) (FP.fin 0)) then
                (bodies.getD i default).position -
                  (if FP.blt (FP.fin 0) distance then delta / distance
                   else (⟨FP.fin 1, FP.fin 0⟩ : Vec2)) *
                    (FP.fin (1/2) * FP.max (collisionDistance - distance) (FP.fin 0) +
                      FP.fin (1 / 10 ^ 9))
              else (bodies.getD i default).position }).set j
        { bodies.getD j default with
            velocity :=
              if FP.ble (((bodies.getD j default).velocity -
                  (bodies.getD i default).velocity).dot
                    (if FP.blt (FP.fin 0) distance then delta / distance
                     else (⟨FP.fin 1, FP.fin 0⟩ : Vec2))) (FP.fin 0) then
                (bodies.getD j default).velocity +
                  ((if FP.blt (FP.fin 0) distance then delta / distance
                    else (⟨FP.fin 1, FP.fin 0⟩ : Vec2)) *
                    (-((FP.fin 1 + FP.fin 1) *
                        (((bodies.getD j default).velocity -
                          (bodies.getD i default).velocity).dot
                            (if FP.blt (FP.fin 0) distance then delta / distance
                             else (⟨FP.fin 1, FP.fin 0⟩ : Vec2)))) /
                      (FP.fin 1 / (bodies.getD i default).mass +
                        FP.fin 1 / (bodies.getD j default).mass))) /
                    (bodies.getD j default).mass
              else (bodies.getD j default).velocity
            position :=
              if FP.blt (FP.fin 0) (FP.max (collisionDistance - distance) (FP.fin 0)) then
                (bodies.getD j default).position +
                  (if FP.blt (FP.fin 0) distance then delta / distance
                   else (⟨FP.fin 1, FP.fin 0⟩ : Vec2)) *
                    (FP.fin (1/2) * FP.max (collisionDistance - distance) (FP.fin 0) +
                      FP.fin (1 / 10 ^ 9))
              else (bodies.getD j default).position }) ∧
    ((applyElasticCollision bodies i j delta distance collisionDistance).getD i
      default).alive = true ∧
    ((applyElasticCollision bodies i j delta distance collisionDistance).getD j
      default).alive = true := by
  have hsum : FP.fin 1 / (bodies.getD i default).mass +
      FP.fin 1 / (bodies.getD j default).mass = FP.fin (1/mi + 1/mj) := by
    rw [hmi, hmj, FP.fin_div_fin 1 mi (by positivity), FP.fin_div_fin 1 mj (by positivity),
      FP.fin_add_fin]
  have hpos : FP.blt (FP.fin 0) (FP.fin 1 / (bodies.getD i default).mass +
      FP.fin 1 / (bodies.getD j default).mass) = true := by
    rw [hsum, FP.blt_fin_fin]
    simp only [decide_eq_true_eq]
    positivity
  have hmain : applyElasticCollision bodies i j delta distance collisionDistance =
      (bodies.set i
        { bodies.getD i default with
            velocity :=
              if FP.ble (((bodies.getD j default).velocity -
                  (bodies.getD i default).velocity).dot
                    (if FP.blt (FP.fin 0) distance then delta / distance
                     else (⟨FP.fin 1, FP.fin 0⟩ : Vec2))) (FP.fin 0) then
                (bodies.getD i default).velocity -
                  ((if FP.blt (FP.fin 0) distance then delta / distance
                    else (⟨FP.fin 1, FP.fin 0⟩ : Vec2)) *
                    (-((FP.fin 1 + FP.fin 1) *
                        (((bodies.getD j default).velocity -
                          (bodies.getD i default).velocity).dot
                            (if FP.blt (FP.fin 0) distance then delta / distance
                             else (⟨FP.fin 1, FP.fin 0⟩ : Vec2)))) /
                      (FP.fin 1 / (bodies.getD i default).mass +
                        FP.fin 1 / (bodies.getD j default).mass))) /
                    (bodies.getD i default).mass
              else (bodies.getD i default).velocity
            position :=
              if FP.blt (FP.fin 0) (FP.max (collisionDistance - distance) (FP.fin 0)) then
                (bodies.getD i default).position -
                  (if FP.blt (FP.fin 0) distance then delta / distance
                   else (⟨FP.fin 1, FP.fin 0⟩ : Vec2)) *
                    (FP.fin (1/2) * FP.max (collisionDistance - distance) (FP.fin 0) +
                      FP.fin (1 / 10 ^ 9))
              else (bodies.getD i default).position }).set j
        { bodies.getD j default with
            velocity :=
              if FP.ble (((bodies.getD j default).velocity -
                  (bodies.getD i default).velocity).dot
                    (if FP.blt (FP.fin 0) distance then delta / distance
                     else (⟨FP.fin 1, FP.fin 0⟩ : Vec2))) (FP.fin 0) then
                (bodies.getD j default).velocity +
                  ((if FP.blt (FP.fin 0) distance then delta / distance
                    else (⟨FP.fin 1, FP.fin 0⟩ : Vec2)) *
                    (-((FP.fin 1 + FP.fin 1) *
                        (((bodies.getD j default).velocity -
                          (bodies.getD i default).velocity).dot
                            (if FP.blt (FP.fin 0) distance then delta / distance
                             else (⟨FP.fin 1, FP.fin 0⟩ : Vec2)))) /
                      (FP.fin 1 / (bodies.getD i default).mass +
                        FP.fin 1 / (bodies.getD j default).mass))) /
                    (bodies.getD j default).mass
              else (bodies.getD j default).velocity
            position :=
              if FP.blt (FP.fin 0) (FP.max (collisionDistance - distance) (FP.fin 0)) then
                (bodies.getD j default).position +
                  (if FP.blt (FP.fin 0) distance then delta / distance
                   else (⟨FP.fin 1, FP.fin 0⟩ : Vec2)) *
                    (FP.fin (1/2) * FP.max (collisionDistance - distance) (FP.fin 0) +
                      FP.fin (1 / 10 ^ 9))
              else (bodies.getD j default).position } := by
    simp only [applyElasticCollision, hai, haj, Bool.not_true, Bool.or_self,
      Bool.false_eq_true, if_false, hpos, eq_self_iff_true, if_true]
    split_ifs <;> rfl
  refine ⟨hmain, ?_, ?_⟩
  · rw [hmain, getD_set_set_lower _ _ (Nat.ne_of_lt hij) (lt_trans hij hj)]
    exact hai
  · rw [hmain, getD_set_set_upper _ _ (by simpa using hj)]
    exact haj

/-- Touching elastic pair used by the C4 counterexample: distance exactly
equals the radius sum, so the overlap is zero. -/
def touchingPair : List Body :=
  [mkBody "a" 1 1 (FP.fin 0) (FP.fin 0) (FP.fin 0) (FP.fin 0),
   mkBody "b" 1 1 (FP.fin 2) (FP.fin 0) (FP.fin (-1)) (FP.fin 0)]

/-- Claim C4, counterexample to the claim as stated: the touching pair is
processed (one collision counted, the impulse changes the velocities), but
neither position changes, because the source translates positions only when
the overlap is strictly positive. -/
theorem c4_counterexample :
    (resolveCollisions touchingPair .elastic).2.collisions = 1 ∧
    ((resolveCollisions touchingPair .elastic).1.getD 0 default).position =
      (touchingPair.getD 0 default).position ∧
    ((resolveCollisions touchingPair .elastic).1.getD 1 default).position =
      (touchingPair.getD 1 default).position ∧
    ((resolveCollisions touchingPair .elastic).1.getD 0 default).velocity =
      ⟨FP.fin (-1), FP.fin 0⟩ ∧
    (touchingPair.getD 0 default).velocity = ⟨FP.fin 0, FP.fin 0⟩ ∧
    (⟨FP.fin (-1), FP.fin 0⟩ : Vec2) ≠ ⟨FP.fin 0, FP.fin 0⟩ := by
  refine ⟨?_, ?_, ?_, ?_, ?_, ?_⟩
  · with_unfolding_all rfl
  · with_unfolding_all rfl
  · with_unfolding_all rfl
  · with_unfolding_all rfl
  · with_unfolding_all rfl
  · intro h
    have hx := congrArg Vec2.x h
    simp only [FP.fin.injEq] at hx
    norm_num at hx

/-- Claim C4, witness: an overlapping pair (radii 2, distance 2) gets the
impulse and is pushed apart by half the overlap plus the epsilon. -/
theorem c4_witness :
    applyElasticCollision
        [mkBody "a" 1 2 (FP.fin 0) (FP.fin 0) (FP.fin 0) (FP.fin 0),
         mkBody "b" 1 2 (FP.fin 2) (FP.fin 0) (FP.fin (-1)) (FP.fin 0)]
        0 1 ⟨FP.fin 2, FP.fin 0⟩ (FP.fin 2) (FP.fin 4) =
      [{ mkBody "a" 1 2 (FP.fin 0) (FP.fin 0) (FP.fin 0) (FP.fin 0) with
          velocity := ⟨FP.fin (-1), FP.fin 0⟩
          position := ⟨FP.fin (-(1000000001/1000000000)), FP.fin 0⟩ },
       { mkBody "b" 1 2 (FP.fin 2) (FP.fin 0) (FP.fin (-1)) (FP.fin 0) with
          velocity := ⟨FP.fin 0, FP.fin 0⟩
          position := ⟨FP.fin (3000000001/1000000000), FP.fin 0⟩ }] := by
  have h := (c4_elastic_collision
    [mkBody "a" 1 2 (FP.fin 0) (FP.fin 0) (FP.fin 0) (FP.fin 0),
     mkBody "b" 1 2 (FP.fin 2) (FP.fin 0) (FP.fin (-1)) (FP.fin 0)]
    0 1 ⟨FP.fin 2, FP.fin 0⟩ (FP.fin 2) (FP.fin 4) 1 1
    (by omega) (by simp) (by with_unfolding_all rfl) (by with_unfolding_all rfl)
    (by with_unfolding_all rfl) (by norm_num) (by with_unfolding_all rfl) (by norm_num)).1
  rw [h]
  with_unfolding_all rfl

/-- Maximum alive speed as the spec phrases it: fold of `f64::max` over the
norms of the alive velocities, starting from 0. -/
def specMaxSpeed (bodies : List Body) : FP :=
  ((bodies.filter (·.alive)).map (fun b => b.velocity.norm)).foldl FP.max (FP.fin 0)

/-- All ordered index pairs i < j below n, row by row. -/
def specOrderedPairs (n : ℕ) : List (ℕ × ℕ) :=
  (List.range n).flatMap (fun i => (List.range' (i + 1) (n - (i + 1))).map (fun j => (i, j)))

/-- The strictly positive distances over distinct alive pairs. -/
def specPositiveDistances (bodies : List Body) : List FP :=
  (specOrderedPairs bodies.length).filterMap
    (fun p =>
      if (bodies.getD p.1 default).alive ∧ (bodies.getD p.2 default).alive ∧
          FP.blt (FP.fin 0)
            (((bodies.getD p.2 default).position - (bodies.getD p.1 default).position).norm)
            = true then
        some (((bodies.getD p.2 default).position - (bodies.getD p.1 default).position).norm)
      else none)

/-- Minimum pairwise distance as the spec phrases it: fold of `f64::min` over
the positive alive-pair distances, starting from infinity. -/
def specMinDistance (bodies : List Body) : FP :=
  (specPositiveDistances bodies).foldl FP.min FP.inf

/-- Folding over a flatMap folds each produced segment in turn. -/
theorem foldl_flatMap (g : α → List β) (f : γ → β → γ) (l : List α) (init : γ) :
    (l.flatMap g).foldl f init = l.foldl (fun acc x => (g x).foldl f acc) init := by
  induction l generalizing init with
  | nil => rfl
  | cons x xs ih => simp [List.flatMap_cons, List.foldl_append, ih]

/-- Folding a minimum over a filterMap skips the dropped elements. -/
theorem foldl_min_filterMap (g : α → Option FP) (l : List α) (acc : FP) :
    (l.filterMap g).foldl FP.min acc =
      l.foldl (fun a x => match g x with | some d => FP.min a d | none => a) acc := by
  induction l generalizing acc with
  | nil => rfl
  | cons x xs ih => cases hg : g x <;> simp [List.filterMap_cons, hg, ih]

/-- A fold whose step fixes the accumulator returns the initial value. -/
theorem foldl_of_fixed {l : List α} {f : γ → α → γ} {acc : γ}
    (h : ∀ a, ∀ x ∈ l, f a x = a) : l.foldl f acc = acc := by
  induction l generalizing acc with
  | nil => rfl
  | cons x xs ih =>
      rw [List.foldl_cons, h acc x (by simp)]
      exact ih (fun a y hy => h a y (by simp [hy]))

/-- The inner double loop of `effective_dt` equals the spec-side minimum over
the positive alive-pair distances. -/
theorem minDistance_loop_eq (bodies : List Body) :
    (List.range bodies.length).foldl
      (fun accOuter i =>
        if !(bodies.getD i default).alive then accOuter
        else
          (List.range' (i + 1) (bodies.length - (i + 1))).foldl
            (fun acc j =>
              if !(bodies.getD j default).alive then acc
              else
                let distance :=
                  ((bodies.getD j default).position - (bodies.getD i default).position).norm
                if FP.blt (FP.fin 0) distance then FP.min acc distance else acc)
            accOuter)
      FP.inf = specMinDistance bodies := by
  unfold specMinDistance specPositiveDistances specOrderedPairs
  rw [foldl_min_filterMap, foldl_flatMap]
  apply List.foldl_ext
  intro acc i hi
  rw [List.foldl_map]
  by_cases hai : (bodies.getD i default).alive = true
  · simp only [hai, Bool.not_true, Bool.false_eq_true, if_false]
    apply List.foldl_ext
    intro a j hj
    by_cases haj : (bodies.getD j default).alive = true
    · by_cases hdist : FP.blt (FP.fin 0)
          (((bodies.getD j default).position - (bodies.getD i default).position).norm) = true
      · simp only [List.getD_eq_getElem?_getD] at haj hdist
        simp [haj, hdist]
      · simp only [List.getD_eq_getElem?_getD] at haj hdist
        simp [haj, hdist]
    · rw [Bool.not_eq_true] at haj
      simp only [List.getD_eq_getElem?_getD] at haj
      simp [haj]
  · simp only [hai]
    rw [if_pos (by simp [hai])]
    symm
    apply foldl_of_fixed
    intro a j hj
    simp [hai]

/-- The alive-speed fold of `effective_dt` equals the spec-side maximum. -/
theorem maxSpeed_loop_eq (bodies : List Body) :
    (bodies.filter (·.alive)).foldl (fun acc b => FP.max acc b.velocity.norm) (FP.fin 0) =
      specMaxSpeed bodies := by
  unfold specMaxSpeed
  rw [List.foldl_map]

/-- Claim C7: with a validated dt, Fixed policy returns the configured dt and
Adaptive policy returns the configured dt when the minimum positive pair
distance is not finite or the maximum speed is zero, and otherwise
0.05 times their ratio clamped to the interval from 0.05 dt to dt. -/
theorem c7_effective_dt (bodies : List Body) (config : EngineConfig) (d : ℚ)
    (hdt : config.dt = FP.fin d) (hd : 0 < d) :
    (config.dtPolicy = .fixed → effectiveDt bodies config = config.dt) ∧
    (config.dtPolicy = .adaptive →
      effectiveDt bodies config =
        if !(specMinDistance bodies).isFinite || specMaxSpeed bodies = FP.fin 0 then config.dt
        else FP.clamp (FP.fin (1/20) * specMinDistance bodies / specMaxSpeed bodies)
          (config.dt * FP.fin (1/20)) config.dt) := by
  constructor
  · intro h
    unfold effectiveDt
    rw [if_pos (by simp [h])]
  · intro h
    unfold effectiveDt
    rw [if_neg (by simp [h])]
    dsimp only
    rw [minDistance_loop_eq, maxSpeed_loop_eq]

/-- Adaptive variant of the fixture configuration (valid only with the
deterministic flag off). -/
def adaptiveCfg : EngineConfig :=
  { cfgFixture with dtPolicy := .adaptive, deterministic := false }

/-- Claim C7, witness: two alive bodies at distance 4 with maximum speed 2
give dt = 0.05 times 4 / 2 = 0.1, inside the clamp interval. -/
theorem c7_witness :
    effectiveDt
      [mkBody "a" 1 1 (FP.fin 0) (FP.fin 0) (FP.fin 0) (FP.fin 0),
       mkBody "b" 1 1 (FP.fin 4) (FP.fin 0) (FP.fin 2) (FP.fin 0)] adaptiveCfg =
      FP.fin (1/10) := by
  have h := (c7_effective_dt
    [mkBody "a" 1 1 (FP.fin 0) (FP.fin 0) (FP.fin 0) (FP.fin 0),
     mkBody "b" 1 1 (FP.fin 4) (FP.fin 0) (FP.fin 2) (FP.fin 0)] adaptiveCfg 1
    rfl (by norm_num)).2 rfl
  rw [h]
  with_unfolding_all rfl

/-- One successful iteration advances the tick by one and keeps the config. -/
theorem advance_tick_succ (e e2 : SimulationEngine) (h : advance e = some e2) :
    e2.tick = e.tick + 1 ∧ e2.config = e.config := by
  unfold advance at h
  rcases hint : integrateStep e.bodies e.config with ⟨bodies2, r⟩
  rw [hint] at h
  cases r with
  | error err => simp at h
  | ok stats =>
      rcases hres : resolveCollisions bodies2 e.config.collisionMode with ⟨bodies3, st⟩
      simp only [hres, Option.some.injEq] at h
      subst h
      exact ⟨rfl, rfl⟩

/-- Iterated successful iterations advance the tick by their number and keep
the config. -/
theorem advanceN_tick (k : ℕ) :
    ∀ e em, advanceN k e = some em → em.tick = e.tick + k ∧ em.config = e.config := by
  induction k with
  | zero =>
      intro e em h
      simp only [advanceN, Option.some.injEq] at h
      subst h
      exact ⟨rfl, rfl⟩
  | succ k ih =>
      intro e em h
      unfold advanceN at h
      rcases hadv : advance e with _ | e2
      · rw [hadv] at h; cases h
      · rw [hadv] at h
        obtain ⟨h1, h2⟩ := ih e2 em h
        obtain ⟨h3, h4⟩ := advance_tick_succ e e2 hadv
        exact ⟨by omega, by rw [h2, h4]⟩

/-- A successful integration makes `advance` produce the committed state. -/
theorem advance_eq_of_integrate (e : SimulationEngine) (bodies2 : List Body)
    (stats : IntegratorStepStats)
    (h : integrateStep e.bodies e.config = (bodies2, .ok stats)) :
    advance e = some { e with
      bodies := (resolveCollisions bodies2 e.config.collisionMode).1
      tick := e.tick + 1
      simTime := e.simTime + stats.dtUsed } := by
  unfold advance
  rw [h]

/-- A failing step loop leaves tick and sim time at the values of the state
reached by the last fully successful iteration. -/
theorem stepLoop_error_state (n : ℕ) :
    ∀ e s e2 err, stepLoop n e s = (e2, .error err) →
      ∃ k, k < n ∧ ∃ em, advanceN k e = some em ∧
        e2.tick = em.tick ∧ e2.simTime = em.simTime := by
  induction n with
  | zero => intro e s e2 err h; simp [stepLoop] at h
  | succ n ih =>
      intro e s e2 err h
      unfold stepLoop at h
      rcases hint : integrateStep e.bodies e.config with ⟨bodies2, r⟩
      rw [hint] at h
      cases r with
      | error e' =>
          dsimp only at h
          simp only [Prod.mk.injEq, Except.error.injEq] at h
          exact ⟨0, by omega, e, rfl, by rw [← h.1], by rw [← h.1]⟩
      | ok stats =>
          dsimp only at h
          rcases hres : resolveCollisions bodies2 e.config.collisionMode with ⟨bodies3, cst⟩
          rw [hres] at h
          dsimp only at h
          obtain ⟨k, hk, em, hem, h1, h2⟩ := ih _ _ e2 err h
          refine ⟨k + 1, by omega, em, ?_, h1, h2⟩
          unfold advanceN
          rw [advance_eq_of_integrate e bodies2 stats hint, hres]
          exact hem

/-- A fully successful step loop reaches exactly the n-fold advanced state. -/
theorem stepLoop_ok_state (n : ℕ) :
    ∀ e s e2 s2, stepLoop n e s = (e2, .ok s2) → advanceN n e = some e2 := by
  induction n with
  | zero =>
      intro e s e2 s2 h
      simp only [stepLoop, Prod.mk.injEq, Except.ok.injEq] at h
      simp [advanceN, h.1]
  | succ n ih =>
      intro e s e2 s2 h
      unfold stepLoop at h
      rcases hint : integrateStep e.bodies e.config with ⟨bodies2, r⟩
      rw [hint] at h
      cases r with
      | error e' => dsimp only at h; simp at h
      | ok stats =>
          dsimp only at h
          rcases hres : resolveCollisions bodies2 e.config.collisionMode with ⟨bodies3, cst⟩
          rw [hres] at h
          dsimp only at h
          unfold advanceN
          rw [advance_eq_of_integrate e bodies2 stats hint, hres]
          exact ih _ _ e2 s2 h

/-- Claim C2 (amended): when step fails, tick and sim_time hold exactly the
values of the state after the last fully successful iteration (a failing
iteration never advances them), and that state is k successful iterations
from the start for some k at most ticks.  The bodies, however, may retain
partial mutations of the failing iteration (see the counterexample). -/
theorem c2_failing_step_state (e : SimulationEngine) (ticks : ℕ)
    (e2 : SimulationEngine) (err : EngineError)
    (h : step e ticks = (e2, .error err)) :
    ∃ k, k ≤ ticks ∧ ∃ em, advanceN k e = some em ∧
      e2.tick = em.tick ∧ e2.simTime = em.simTime ∧ em.tick = e.tick + k := by
  by_cases h0 : ticks = 0
  · subst h0
    unfold step at h
    simp at h
  · unfold step at h
    rw [if_neg h0] at h
    rcases hloop : stepLoop ticks e { StepSummary.default with maxBodyCount := e.bodies.length }
      with ⟨e3, r⟩
    rw [hloop] at h
    cases r with
    | error err2 =>
        dsimp only at h
        simp only [Prod.mk.injEq, Except.error.injEq] at h
        obtain ⟨k, hk, em, hem, h1, h2⟩ :=
          stepLoop_error_state ticks e _ e3 err2 hloop
        exact ⟨k, by omega, em, hem, by rw [← h.1]; exact h1, by rw [← h.1]; exact h2,
          (advanceN_tick k e em hem).1⟩
    | ok s3 =>
        dsimp only at h
        by_cases hall : e3.bodies.all (fun b => b.position.isFinite && b.velocity.isFinite) = true
        · rw [if_pos hall] at h
          simp at h
        · rw [if_neg hall] at h
          simp only [Prod.mk.injEq, Except.error.injEq] at h
          have hN := stepLoop_ok_state ticks e _ e3 s3 hloop
          exact ⟨ticks, le_refl _, e3, hN, by rw [← h.1], by rw [← h.1],
            (advanceN_tick ticks e e3 hN).1⟩

/-- Engine whose semi-implicit Euler step fails on the second body (infinite
velocity) after body 0 has already been committed. -/
def engineDiverging : SimulationEngine :=
  { config := cfgFixture
    bodies := [mkBody "a" 25 1 (FP.fin 0) (FP.fin 0) (FP.fin 1) (FP.fin 0),
               mkBody "b" 25 1 (FP.fin 5) (FP.fin 0) FP.inf (FP.fin 0)]
    tick := 0, simTime := FP.fin 0 }

/-- Claim C2, witness: the failing one-tick step on the diverging engine
keeps tick and sim time at the values before the failing iteration. -/
theorem c2_witness :
    ∃ k, k ≤ 1 ∧ ∃ em, advanceN k engineDiverging = some em ∧
      (step engineDiverging 1).1.tick = em.tick ∧
      (step engineDiverging 1).1.simTime = em.simTime ∧
      em.tick = engineDiverging.tick + k := by
  exact c2_failing_step_state engineDiverging 1 (step engineDiverging 1).1
    (.numericalInstability ("body produced non-finite state")) (by with_unfolding_all rfl)

/-- Claim C2, counterexample to the claim as stated: the failing iteration
does change body fields.  Body 0 is committed (position moves from the origin
to (2, 0)) before body 1 fails the finiteness check. -/
theorem c2_counterexample :
    (step engineDiverging 1).2 =
      Except.error (.numericalInstability ("body produced non-finite state")) ∧
    ((step engineDiverging 1).1.bodies.getD 0 default).position = ⟨FP.fin 2, FP.fin 0⟩ ∧
    (engineDiverging.bodies.getD 0 default).position = ⟨FP.fin 0, FP.fin 0⟩ ∧
    (⟨FP.fin 2, FP.fin 0⟩ : Vec2) ≠ ⟨FP.fin 0, FP.fin 0⟩ := by
  refine ⟨?_, ?_, ?_, ?_⟩
  · with_unfolding_all rfl
  · with_unfolding_all rfl
  · with_unfolding_all rfl
  · intro hcontra
    have hx := congrArg Vec2.x hcontra
    simp only [FP.fin.injEq] at hx
    norm_num at hx

/-- The solver statistics always report the chosen runtime mode. -/
theorem solver_stats_mode (bodies : List Body) (positions : List Vec2) (config : EngineConfig) :
    (computeAccelerationsWithConfig bodies positions config).2.mode =
      chooseRuntimeMode (aliveCount bodies) config := by
  unfold computeAccelerationsWithConfig
  rcases hm : chooseRuntimeMode (aliveCount bodies) config <;> rfl

/-- A successful integration used the Barnes-Hut solver exactly when the mode
chosen for the alive count at the start of the tick is Barnes-Hut: every
sub-stage of every integrator sees the same alive set. -/
theorem integrate_usedBH (bodies : List Body) (config : EngineConfig)
    (bodies2 : List Body) (stats : IntegratorStepStats)
    (h : integrateStep bodies config = (bodies2, .ok stats)) :
    stats.usedBarnesHut = decide (chooseRuntimeMode (aliveCount bodies) config = .barnesHut) := by
  unfold integrateStep at h
  cases hkind : config.integrator
  case semiImplicitEuler =>
      rw [hkind] at h
      dsimp only at h
      unfold semiImplicitEulerStep computeAccelerations at h
      split at h
      next r e heq => simp at h
      next r ub heq =>
        simp only [Prod.mk.injEq, Except.ok.injEq] at h
        rw [← h.2]
        dsimp only
        dsimp only at heq
        split at heq
        next e heq2 => simp at heq
        next heq2 =>
          injection heq with hub
          rw [← hub]
          simp only [solver_stats_mode]
  case velocityVerlet =>
      rw [hkind] at h
      dsimp only at h
      unfold velocityVerletStep at h
      split at h
      next r e heq => simp at h
      next r ub heq =>
        simp only [Prod.mk.injEq, Except.ok.injEq] at h
        rw [← h.2]
        dsimp only
        dsimp only at heq
        split at heq
        next e heq2 => simp at heq
        next heq2 =>
          injection heq with hub
          rw [← hub]
          simp only [solver_stats_mode, Bool.or_self]
  case rk4 =>
      rw [hkind] at h
      dsimp only at h
      unfold rk4Step at h
      split at h
      next r e heq => simp at h
      next r ub heq =>
        simp only [Prod.mk.injEq, Except.ok.injEq] at h
        rw [← h.2]
        dsimp only
        dsimp only at heq
        split at heq
        next e heq2 => simp at heq
        next heq2 =>
          injection heq with hub
          rw [← hub]
          simp only [solver_stats_mode, Bool.or_self]

/-- Auto mode selects the tree solver exactly at or above the threshold. -/
theorem chooseRuntimeMode_auto (c : ℕ) (config : EngineConfig)
    (hsolver : config.gravitySolver = .auto) :
    chooseRuntimeMode c config = .barnesHut ↔ config.barnesHutThreshold ≤ c := by
  unfold chooseRuntimeMode
  rw [hsolver]
  by_cases hth : config.barnesHutThreshold ≤ c <;> simp [hth]

/-- Per-tick solver counters accumulated by the step loop in Auto mode with a
constant alive count. -/
theorem stepLoop_auto_counts (c : ℕ) (n : ℕ) :
    ∀ e s e2 s2,
      e.config.gravitySolver = .auto →
      stepLoop n e s = (e2, .ok s2) →
      (∀ k, k < n → ∀ em, advanceN k e = some em → aliveCount em.bodies = c) →
      (e.config.barnesHutThreshold ≤ c →
        s2.barnesHutTicks = s.barnesHutTicks + n ∧ s2.pairwiseTicks = s.pairwiseTicks) ∧
      (c < e.config.barnesHutThreshold →
        s2.pairwiseTicks = s.pairwiseTicks + n ∧ s2.barnesHutTicks = s.barnesHutTicks) := by
  induction n with
  | zero =>
      intro e s e2 s2 hsolver h hconst
      simp only [stepLoop, Prod.mk.injEq, Except.ok.injEq] at h
      rw [← h.2]
      exact ⟨fun _ => ⟨by omega, rfl⟩, fun _ => ⟨by omega, rfl⟩⟩
  | succ n ih =>
      intro e s e2 s2 hsolver h hconst
      have hc0 : aliveCount e.bodies = c := hconst 0 (by omega) e rfl
      unfold stepLoop at h
      rcases hint : integrateStep e.bodies e.config with ⟨bodies2, r⟩
      rw [hint] at h
      cases r with
      | error e' => dsimp only at h; simp at h
      | ok stats =>
          dsimp only at h
          rcases hres : resolveCollisions bodies2 e.config.collisionMode with ⟨bodies3, cst⟩
          rw [hres] at h
          dsimp only at h
          have hbh : stats.usedBarnesHut = decide (e.config.barnesHutThreshold ≤ c) := by
            rw [integrate_usedBH e.bodies e.config bodies2 stats hint, hc0]
            unfold chooseRuntimeMode
            rw [hsolver]
            by_cases hth : e.config.barnesHutThreshold ≤ c
            · simp [hth]
            · simp [hth]
          rw [hbh] at h
          have hshift : ∀ k, k < n →
              ∀ em, advanceN k { e with
                bodies := bodies3
                tick := e.tick + 1
                simTime := e.simTime + stats.dtUsed } = some em →
                aliveCount em.bodies = c := by
            intro k hk em hadv
            refine hconst (k + 1) (by omega) em ?_
            unfold advanceN
            rw [advance_eq_of_integrate e bodies2 stats hint, hres]
            exact hadv
          by_cases hth : e.config.barnesHutThreshold ≤ c
          · rw [if_pos (show decide (e.config.barnesHutThreshold ≤ c) = true by simp [hth])] at h
            obtain ⟨hA, hB⟩ := ih { e with
              bodies := bodies3
              tick := e.tick + 1
              simTime := e.simTime + stats.dtUsed } _ e2 s2 hsolver h hshift
            refine ⟨fun _ => ?_, fun hlt => absurd hth (by omega)⟩
            obtain ⟨h1, h2⟩ := hA hth
            have h1b : s2.barnesHutTicks = s.barnesHutTicks + 1 + n := h1
            have h2b : s2.pairwiseTicks = s.pairwiseTicks := h2
            exact ⟨by omega, by omega⟩
          · rw [if_neg (show ¬decide (e.config.barnesHutThreshold ≤ c) = true by simp [hth])] at h
            obtain ⟨hA, hB⟩ := ih { e with
              bodies := bodies3
              tick := e.tick + 1
              simTime := e.simTime + stats.dtUsed } _ e2 s2 hsolver h hshift
            refine ⟨fun hle => absurd hle hth, fun hlt => ?_⟩
            obtain ⟨h1, h2⟩ := hB hlt
            have h1b : s2.pairwiseTicks = s.pairwiseTicks + 1 + n := h1
            have h2b : s2.barnesHutTicks = s.barnesHutTicks := h2
            exact ⟨by omega, by omega⟩

/-- Claim C6: with an Auto solver and an alive count constant at c along the
run, the tree solver is selected per evaluation exactly when the threshold is
at or below c, and the per-tick counters of a successful step(n) are all
Barnes-Hut (threshold at most c) or all pairwise (threshold above c). -/
theorem c6_auto_solver_tick_counters (e : SimulationEngine) (ticks : ℕ)
    (e2 : SimulationEngine) (s : StepSummary) (c : ℕ)
    (hsolver : e.config.gravitySolver = .auto)
    (hticks : 1 ≤ ticks)
    (hstep : step e ticks = (e2, .ok s))
    (hconst : ∀ k, k < ticks → ∀ em, advanceN k e = some em → aliveCount em.bodies = c) :
    (∀ m : ℕ, (chooseRuntimeMode m e.config = .barnesHut ↔ e.config.barnesHutThreshold ≤ m)) ∧
    (e.config.barnesHutThreshold ≤ c → s.barnesHutTicks = ticks ∧ s.pairwiseTicks = 0) ∧
    (c < e.config.barnesHutThreshold → s.pairwiseTicks = ticks ∧ s.barnesHutTicks = 0) := by
  refine ⟨fun m => chooseRuntimeMode_auto m e.config hsolver, ?_⟩
  have hne : ticks ≠ 0 := by omega
  unfold step at hstep
  rw [if_neg hne] at hstep
  rcases hloop : stepLoop ticks e { StepSummary.default with maxBodyCount := e.bodies.length }
    with ⟨e3, r⟩
  rw [hloop] at hstep
  cases r with
  | error err => simp at hstep
  | ok s3 =>
      dsimp only at hstep
      by_cases hall : e3.bodies.all (fun b => b.position.isFinite && b.velocity.isFinite) = true
      · rw [if_pos hall] at hstep
        simp only [Prod.mk.injEq, Except.ok.injEq] at hstep
        obtain ⟨hA, hB⟩ := stepLoop_auto_counts c ticks e _ e3 s3 hsolver hloop hconst
        rw [← hstep.2]
        constructor
        · intro hth
          obtain ⟨h1, h2⟩ := hA hth
          have h1b : s3.barnesHutTicks = 0 + ticks := h1
          have h2b : s3.pairwiseTicks = 0 := h2
          exact ⟨show s3.barnesHutTicks = ticks by omega,
            show s3.pairwiseTicks = 0 by omega⟩
        · intro hlt
          obtain ⟨h1, h2⟩ := hB hlt
          have h1b : s3.pairwiseTicks = 0 + ticks := h1
          have h2b : s3.barnesHutTicks = 0 := h2
          exact ⟨show s3.pairwiseTicks = ticks by omega,
            show s3.barnesHutTicks = 0 by omega⟩
      · rw [if_neg hall] at hstep
        simp at hstep

/-- Two alive bodies under Auto with threshold 3: pairwise side of C6. -/
def engineAutoPair : SimulationEngine :=
  { config := { cfgFixture with gravitySolver := .auto, barnesHutThreshold := 3 }
    bodies := [mkBody "a" 1 1 (FP.fin 0) (FP.fin 0) (FP.fin 0) (FP.fin 0),
               mkBody "b" 1 1 (FP.fin 3) (FP.fin 0) (FP.fin 0) (FP.fin 0)]
    tick := 0, simTime := FP.fin 0 }

/-- Claim C6, witness: the two-body Auto engine with threshold 3 does one
pairwise tick and no Barnes-Hut tick. -/
theorem c6_witness :
    ∃ s : StepSummary, (step engineAutoPair 1).2 = .ok s ∧
      s.pairwiseTicks = 1 ∧ s.barnesHutTicks = 0 := by
  have h := c6_auto_solver_tick_counters engineAutoPair 1
    { engineAutoPair with
        bodies := [{ mkBody "a" 1 1 (FP.fin 0) (FP.fin 0) (FP.fin 0) (FP.fin 0) with
                       position := ⟨FP.fin (1/9), FP.fin 0⟩
                       velocity := ⟨FP.fin (1/9), FP.fin 0⟩ },
                   { mkBody "b" 1 1 (FP.fin 3) (FP.fin 0) (FP.fin 0) (FP.fin 0) with
                       position := ⟨FP.fin (26/9), FP.fin 0⟩
                       velocity := ⟨FP.fin (-(1/9)), FP.fin 0⟩ }]
        tick := 1
        simTime := FP.fin 1 }
    { ticksApplied := 1
      finalTick := 1
      simTime := FP.fin 1
      collisionEvents := 0
      mergedEvents := 0
      warnings := []
      pairwiseTicks := 1
      barnesHutTicks := 0
      stepWallTimeMicros := 0
      averageTickMicros := 0
      maxBodyCount := 2
      lastSolverMode := "pairwise" } 2
    rfl (by omega) (by with_unfolding_all rfl)
    (by
      intro k hk em hadv
      have hk0 : k = 0 := by omega
      subst hk0
      simp only [advanceN, Option.some.injEq] at hadv
      rw [← hadv]
      rfl)
  obtain ⟨hsel, hbh, hpw⟩ := h
  refine ⟨_, by with_unfolding_all rfl, (hpw (by decide)).1, (hpw (by decide)).2⟩

/-- Rational carried by a finite value (0 on the special values). -/
def FP.ratOf : FP → ℚ
  | .fin q => q
  | _ => 0

/-- The body data at index k is finite with positive mass. -/
def goodBodyAt (positions : List Vec2) (masses : List FP) (k : ℕ) : Prop :=
  ((masses.getD k (FP.fin 0)).isFinite && FP.blt (FP.fin 0) (masses.getD k (FP.fin 0)) &&
    (positions.getD k Vec2.zero).isFinite) = true

/-- Mass at an index, as a rational. -/
def ratMass (masses : List FP) (k : ℕ) : ℚ := (masses.getD k (FP.fin 0)).ratOf

/-- Position x component at an index, as a rational. -/
def ratX (positions : List Vec2) (k : ℕ) : ℚ := (positions.getD k Vec2.zero).x.ratOf

/-- Position y component at an index, as a rational. -/
def ratY (positions : List Vec2) (k : ℕ) : ℚ := (positions.getD k Vec2.zero).y.ratOf

/-- Total mass of a list of body indices. -/
def totalMass (masses : List FP) (l : List ℕ) : ℚ := (l.map (ratMass masses)).sum

/-- Mass-weighted x coordinate sum of a list of body indices. -/
def weightedX (positions : List Vec2) (masses : List FP) (l : List ℕ) : ℚ :=
  (l.map (fun k => ratX positions k * ratMass masses k)).sum

/-- Mass-weighted y coordinate sum of a list of body indices. -/
def weightedY (positions : List Vec2) (masses : List FP) (l : List ℕ) : ℚ :=
  (l.map (fun k => ratY positions k * ratMass masses k)).sum

/-- The node aggregates are exactly the statistics of the index list l:
count is its length, mass its total mass, and the center of mass the
mass-weighted centroid. -/
def AggOf (positions : List Vec2) (masses : List FP) (n : QuadNode) (l : List ℕ) : Prop :=
  n.count = l.length ∧
  n.mass = FP.fin (totalMass masses l) ∧
  (l ≠ [] → n.com = ⟨FP.fin (weightedX positions masses l / totalMass masses l),
                     FP.fin (weightedY positions masses l / totalMass masses l)⟩) ∧
  (∀ k ∈ l, goodBodyAt positions masses k)

/-- Every node of the tree carries correct aggregates for some index list,
and stored body indices are good. -/
def InvN (positions : List Vec2) (masses : List FP) : QuadNode → Prop
  | n@(.node _ _ _ _ _ bi c0 c1 c2 c3) =>
      (∃ l, AggOf positions masses n l) ∧
      (∀ k, bi = some k → goodBodyAt positions masses k) ∧
      (match c0 with | some c => InvN positions masses c | none => True) ∧
      (match c1 with | some c => InvN positions masses c | none => True) ∧
      (match c2 with | some c => InvN positions masses c | none => True) ∧
      (match c3 with | some c => InvN positions masses c | none => True)

/-- Invariant lifted to an optional child. -/
def OptInv (positions : List Vec2) (masses : List FP) : Option QuadNode → Prop
  | some c => InvN positions masses c
  | none => True

/-- The children part of the invariant. -/
def ChildrenInv (positions : List Vec2) (masses : List FP) (n : QuadNode) : Prop :=
  match n with
  | .node _ _ _ _ _ _ c0 c1 c2 c3 =>
      OptInv positions masses c0 ∧ OptInv positions masses c1 ∧
      OptInv positions masses c2 ∧ OptInv positions masses c3

/-- Unfolding of the node invariant. -/
theorem InvN_iff (positions : List Vec2) (masses : List FP) (n : QuadNode) :
    InvN positions masses n ↔
      (∃ l, AggOf positions masses n l) ∧
      (∀ k, n.bodyIndex = some k → goodBodyAt positions masses k) ∧
      ChildrenInv positions masses n := by
  rcases n with ⟨ct, h, m, cm, cnt, bi, c0, c1, c2, c3⟩
  cases c0 <;> cases c1 <;> cases c2 <;> cases c3 <;>
    simp [InvN, OptInv, ChildrenInv, QuadNode.bodyIndex]

namespace QuadNode

theorem count_withStats (n : QuadNode) (cnt : ℕ) (m : FP) (cm : Vec2) (bi : Option ℕ) :
    (n.withStats cnt m cm bi).count = cnt := by cases n; rfl

theorem mass_withStats (n : QuadNode) (cnt : ℕ) (m : FP) (cm : Vec2) (bi : Option ℕ) :
    (n.withStats cnt m cm bi).mass = m := by cases n; rfl

theorem com_withStats (n : QuadNode) (cnt : ℕ) (m : FP) (cm : Vec2) (bi : Option ℕ) :
    (n.withStats cnt m cm bi).com = cm := by cases n; rfl

theorem bodyIndex_withStats (n : QuadNode) (cnt : ℕ) (m : FP) (cm : Vec2) (bi : Option ℕ) :
    (n.withStats cnt m cm bi).bodyIndex = bi := by cases n; rfl

theorem isLeaf_withStats (n : QuadNode) (cnt : ℕ) (m : FP) (cm : Vec2) (bi : Option ℕ) :
    (n.withStats cnt m cm bi).isLeaf = n.isLeaf := by cases n; rfl

theorem halfSize_withStats (n : QuadNode) (cnt : ℕ) (m : FP) (cm : Vec2) (bi : Option ℕ) :
    (n.withStats cnt m cm bi).halfSize = n.halfSize := by cases n; rfl

theorem count_withBodyIndex (n : QuadNode) (bi : Option ℕ) :
    (n.withBodyIndex bi).count = n.count := by cases n; rfl

theorem mass_withBodyIndex (n : QuadNode) (bi : Option ℕ) :
    (n.withBodyIndex bi).mass = n.mass := by cases n; rfl

theorem com_withBodyIndex (n : QuadNode) (bi : Option ℕ) :
    (n.withBodyIndex bi).com = n.com := by cases n; rfl

theorem bodyIndex_withBodyIndex (n : QuadNode) (bi : Option ℕ) :
    (n.withBodyIndex bi).bodyIndex = bi := by cases n; rfl

theorem count_ensureChildren (n : QuadNode) : n.ensureChildren.count = n.count := by
  cases n; unfold ensureChildren; split <;> rfl

theorem mass_ensureChildren (n : QuadNode) : n.ensureChildren.mass = n.mass := by
  cases n; unfold ensureChildren; split <;> rfl

theorem com_ensureChildren (n : QuadNode) : n.ensureChildren.com = n.com := by
  cases n; unfold ensureChildren; split <;> rfl

theorem bodyIndex_ensureChildren (n : QuadNode) : n.ensureChildren.bodyIndex = n.bodyIndex := by
  cases n; unfold ensureChildren; split <;> rfl

theorem count_setChild (n : QuadNode) (k : ℕ) (x : QuadNode) :
    (n.setChild k x).count = n.count := by
  cases n; unfold setChild; dsimp only; split_ifs <;> rfl

theorem mass_setChild (n : QuadNode) (k : ℕ) (x : QuadNode) :
    (n.setChild k x).mass = n.mass := by
  cases n; unfold setChild; dsimp only; split_ifs <;> rfl

theorem com_setChild (n : QuadNode) (k : ℕ) (x : QuadNode) :
    (n.setChild k x).com = n.com := by
  cases n; unfold setChild; dsimp only; split_ifs <;> rfl

theorem bodyIndex_setChild (n : QuadNode) (k : ℕ) (x : QuadNode) :
    (n.setChild k x).bodyIndex = n.bodyIndex := by
  cases n; unfold setChild; dsimp only; split_ifs <;> rfl

theorem count_insertIntoChildWith (ins : QuadNode → QuadNode) (n : QuadNode) (p : Vec2) :
    (insertIntoChildWith ins n p).count = n.count := by
  unfold insertIntoChildWith
  dsimp only
  split <;> simp [count_setChild, count_ensureChildren]

theorem mass_insertIntoChildWith (ins : QuadNode → QuadNode) (n : QuadNode) (p : Vec2) :
    (insertIntoChildWith ins n p).mass = n.mass := by
  unfold insertIntoChildWith
  dsimp only
  split <;> simp [mass_setChild, mass_ensureChildren]

theorem com_insertIntoChildWith (ins : QuadNode → QuadNode) (n : QuadNode) (p : Vec2) :
    (insertIntoChildWith ins n p).com = n.com := by
  unfold insertIntoChildWith
  dsimp only
  split <;> simp [com_setChild, com_ensureChildren]

theorem bodyIndex_insertIntoChildWith (ins : QuadNode → QuadNode) (n : QuadNode) (p : Vec2) :
    (insertIntoChildWith ins n p).bodyIndex = n.bodyIndex := by
  unfold insertIntoChildWith
  dsimp only
  split <;> simp [bodyIndex_setChild, bodyIndex_ensureChildren]

end QuadNode

/-- A good mass is the finite embedding of its positive rational. -/
theorem goodBodyAt_mass (positions : List Vec2) (masses : List FP) (k : ℕ)
    (h : goodBodyAt positions masses k) :
    masses.getD k (FP.fin 0) = FP.fin (ratMass masses k) ∧ 0 < ratMass masses k := by
  unfold goodBodyAt at h
  simp only [Bool.and_eq_true] at h
  obtain ⟨⟨hfin, hpos⟩, _⟩ := h
  rcases hm : masses.getD k (FP.fin 0) with _ | _ | _ | q
  · rw [hm] at hfin; simp [FP.isFinite] at hfin
  · rw [hm] at hfin; simp [FP.isFinite] at hfin
  · rw [hm] at hfin; simp [FP.isFinite] at hfin
  · rw [hm] at hpos
    unfold ratMass
    rw [hm]
    simp only [FP.ratOf]
    rw [FP.blt_fin_fin] at hpos
    exact ⟨True.intro, by simpa using hpos⟩

/-- A good position is the finite embedding of its rational coordinates. -/
theorem goodBodyAt_pos (positions : List Vec2) (masses : List FP) (k : ℕ)
    (h : goodBodyAt positions masses k) :
    positions.getD k Vec2.zero = ⟨FP.fin (ratX positions k), FP.fin (ratY positions k)⟩ := by
  unfold goodBodyAt at h
  simp only [Bool.and_eq_true] at h
  obtain ⟨_, hfin⟩ := h
  unfold Vec2.isFinite at hfin
  simp only [Bool.and_eq_true] at hfin
  obtain ⟨hx, hy⟩ := hfin
  unfold ratX ratY
  rcases hp : positions.getD k Vec2.zero with ⟨px, py⟩
  rw [hp] at hx hy
  rcases px with _ | _ | _ | qx <;> simp [FP.isFinite] at hx
  rcases py with _ | _ | _ | qy <;> simp [FP.isFinite] at hy
  simp [FP.ratOf]

theorem totalMass_nil (masses : List FP) : totalMass masses [] = 0 := rfl

theorem totalMass_cons (masses : List FP) (k : ℕ) (l : List ℕ) :
    totalMass masses (k :: l) = ratMass masses k + totalMass masses l := by
  simp [totalMass]

theorem weightedX_cons (positions : List Vec2) (masses : List FP) (k : ℕ) (l : List ℕ) :
    weightedX positions masses (k :: l) =
      ratX positions k * ratMass masses k + weightedX positions masses l := by
  simp [weightedX]

theorem weightedY_cons (positions : List Vec2) (masses : List FP) (k : ℕ) (l : List ℕ) :
    weightedY positions masses (k :: l) =
      ratY positions k * ratMass masses k + weightedY positions masses l := by
  simp [weightedY]

/-- Total mass of good indices is nonnegative. -/
theorem totalMass_nonneg (positions : List Vec2) (masses : List FP) (l : List ℕ)
    (h : ∀ k ∈ l, goodBodyAt positions masses k) : 0 ≤ totalMass masses l := by
  induction l with
  | nil => simp [totalMass_nil]
  | cons k l ih =>
      rw [totalMass_cons]
      have h1 := (goodBodyAt_mass positions masses k (h k (by simp))).2
      have h2 := ih (fun x hx => h x (by simp [hx]))
      linarith

/-- Total mass of a nonempty list of good indices is positive. -/
theorem totalMass_pos (positions : List Vec2) (masses : List FP) (l : List ℕ)
    (h : ∀ k ∈ l, goodBodyAt positions masses k) (hne : l ≠ []) :
    0 < totalMass masses l := by
  rcases l with _ | ⟨k, l⟩
  · exact absurd rfl hne
  · rw [totalMass_cons]
    have h1 := (goodBodyAt_mass positions masses k (h k (by simp))).2
    have h2 := totalMass_nonneg positions masses l (fun x hx => h x (by simp [hx]))
    linarith

/-- Aggregate correctness only depends on the aggregate fields. -/
theorem AggOf_congr (positions : List Vec2) (masses : List FP) (n1 n2 : QuadNode)
    (l : List ℕ) (hcnt : n2.count = n1.count) (hm : n2.mass = n1.mass)
    (hcom : n2.com = n1.com) (h : AggOf positions masses n1 l) :
    AggOf positions masses n2 l := by
  obtain ⟨h1, h2, h3, h4⟩ := h
  exact ⟨hcnt.trans h1, hm.trans h2, fun hne => hcom.trans (h3 hne), h4⟩

/-- A fresh empty cell satisfies the invariant. -/
theorem new_inv (positions : List Vec2) (masses : List FP) (center : Vec2) (halfSize : FP) :
    InvN positions masses (QuadNode.new center halfSize) := by
  rw [InvN_iff]
  refine ⟨⟨[], rfl, by rw [totalMass_nil]; rfl, fun hne => absurd rfl hne, by simp⟩, ?_, ?_⟩
  · intro k hk
    simp [QuadNode.new, QuadNode.bodyIndex] at hk
  · exact ⟨True.intro, True.intro, True.intro, True.intro⟩

/-- `ensure_children` preserves the children invariant (fresh cells are empty). -/
theorem ensureChildren_inv (positions : List Vec2) (masses : List FP) (n : QuadNode)
    (h : ChildrenInv positions masses n) :
    ChildrenInv positions masses n.ensureChildren := by
  rcases n with ⟨ct, hs, m, cm, cnt, bi, c0, c1, c2, c3⟩
  unfold QuadNode.ensureChildren
  split
  · exact h
  · exact ⟨new_inv _ _ _ _, new_inv _ _ _ _, new_inv _ _ _ _, new_inv _ _ _ _⟩

/-- An occupied child slot of a node with the children invariant holds an
invariant subtree. -/
theorem childrenInv_child (positions : List Vec2) (masses : List FP) (n : QuadNode)
    (k : ℕ) (c : QuadNode) (h : ChildrenInv positions masses n)
    (hc : n.child k = some c) : InvN positions masses c := by
  rcases n with ⟨ct, hs, m, cm, cnt, bi, c0, c1, c2, c3⟩
  obtain ⟨h0, h1, h2, h3⟩ := h
  unfold QuadNode.child at hc
  dsimp only at hc
  split_ifs at hc
  · rw [hc] at h0; exact h0
  · rw [hc] at h1; exact h1
  · rw [hc] at h2; exact h2
  · rw [hc] at h3; exact h3

/-- Replacing a child slot with an invariant subtree preserves the children
invariant. -/
theorem setChild_inv (positions : List Vec2) (masses : List FP) (n : QuadNode)
    (k : ℕ) (x : QuadNode) (h : ChildrenInv positions masses n)
    (hx : InvN positions masses x) :
    ChildrenInv positions masses (n.setChild k x) := by
  rcases n with ⟨ct, hs, m, cm, cnt, bi, c0, c1, c2, c3⟩
  obtain ⟨h0, h1, h2, h3⟩ := h
  unfold QuadNode.setChild
  dsimp only
  split_ifs <;> exact ⟨by first | exact hx | assumption, by first | exact hx | assumption,
    by first | exact hx | assumption, by first | exact hx | assumption⟩

/-- `insert_into_child` preserves the children invariant when the supplied
insertion preserves the subtree invariant. -/
theorem insertIntoChildWith_inv (positions : List Vec2) (masses : List FP)
    (ins : QuadNode → QuadNode) (n : QuadNode) (p : Vec2)
    (hins : ∀ c, InvN positions masses c → InvN positions masses (ins c))
    (h : ChildrenInv positions masses n) :
    ChildrenInv positions masses (QuadNode.insertIntoChildWith ins n p) := by
  unfold QuadNode.insertIntoChildWith
  dsimp only
  have h2 := ensureChildren_inv positions masses n h
  split
  next c hc =>
    exact setChild_inv positions masses _ _ _ h2
      (hins c (childrenInv_child positions masses _ _ c h2 hc))
  next => exact h2

theorem weightedX_nil (positions : List Vec2) (masses : List FP) :
    weightedX positions masses [] = 0 := rfl

theorem weightedY_nil (positions : List Vec2) (masses : List FP) :
    weightedY positions masses [] = 0 := rfl

theorem Vec2.smul_mk (x y s : FP) : (⟨x, y⟩ : Vec2) * s = ⟨x * s, y * s⟩ := rfl

theorem Vec2.add_mk (a b c d : FP) : ((⟨a, b⟩ : Vec2) + ⟨c, d⟩ : Vec2) = ⟨a + c, b + d⟩ := rfl

theorem Vec2.div_mk (x y s : FP) : ((⟨x, y⟩ : Vec2) / s : Vec2) = ⟨x / s, y / s⟩ := rfl

/-- The children part of the invariant ignores the aggregate fields. -/
theorem childrenInv_withStats (positions : List Vec2) (masses : List FP) (n : QuadNode)
    (cnt : ℕ) (m : FP) (cm : Vec2) (bi : Option ℕ) :
    ChildrenInv positions masses (n.withStats cnt m cm bi) ↔
      ChildrenInv positions masses n := by
  cases n; exact Iff.rfl

/-- The children part of the invariant ignores the stored body index. -/
theorem childrenInv_withBodyIndex (positions : List Vec2) (masses : List FP) (n : QuadNode)
    (bi : Option ℕ) :
    ChildrenInv positions masses (n.withBodyIndex bi) ↔ ChildrenInv positions masses n := by
  cases n; exact Iff.rfl

/-- The incremental center-of-mass update of `QuadNode::insert` computes the
centroid of the extended list (exact rational arithmetic). -/
theorem com_update (tm m wX wY rx ry : ℚ) (htm : 0 < tm) (hm : 0 < m) :
    ((⟨FP.fin (wX / tm), FP.fin (wY / tm)⟩ : Vec2) * FP.fin tm +
        (⟨FP.fin rx, FP.fin ry⟩ : Vec2) * FP.fin m) / FP.fin (tm + m) =
      (⟨FP.fin ((rx * m + wX) / (m + tm)), FP.fin ((ry * m + wY) / (m + tm))⟩ : Vec2) := by
  have h1 : tm ≠ 0 := ne_of_gt htm
  have h2 : tm + m ≠ 0 := ne_of_gt (by linarith)
  rw [Vec2.smul_mk, Vec2.smul_mk, Vec2.add_mk, Vec2.div_mk]
  simp only [FP.fin_mul_fin, FP.fin_add_fin, FP.fin_div_fin _ _ h2, Vec2.mk.injEq,
    FP.fin.injEq]
  constructor
  · field_simp
    ring
  · field_simp
    ring

/-- Inserting into an empty cell stores the body and its exact statistics. -/
theorem insert_first (positions : List Vec2) (masses : List FP) (n : QuadNode)
    (index : ℕ) (l : List ℕ)
    (hn : InvN positions masses n) (hagg : AggOf positions masses n l)
    (hgood : goodBodyAt positions masses index) (h0 : n.count = 0) :
    InvN positions masses
      (n.withStats 1 (masses.getD index (FP.fin 0)) (positions.getD index Vec2.zero)
        (some index)) ∧
    AggOf positions masses
      (n.withStats 1 (masses.getD index (FP.fin 0)) (positions.getD index Vec2.zero)
        (some index)) (index :: l) := by
  have hl : l = [] := List.length_eq_zero.mp (hagg.1.symm.trans h0)
  subst hl
  obtain ⟨hmE, hmpos⟩ := goodBodyAt_mass positions masses index hgood
  have hpE := goodBodyAt_pos positions masses index hgood
  have hmne : ratMass masses index ≠ 0 := ne_of_gt hmpos
  have haggNew : AggOf positions masses
      (n.withStats 1 (masses.getD index (FP.fin 0)) (positions.getD index Vec2.zero)
        (some index)) [index] := by
    refine ⟨?_, ?_, ?_, ?_⟩
    · rw [QuadNode.count_withStats]; rfl
    · rw [QuadNode.mass_withStats, hmE, totalMass_cons, totalMass_nil, add_zero]
    · intro _
      rw [QuadNode.com_withStats, hpE, weightedX_cons, weightedX_nil, weightedY_cons,
        weightedY_nil, totalMass_cons, totalMass_nil]
      simp only [add_zero, Vec2.mk.injEq, FP.fin.injEq]
      constructor
      · rw [mul_div_cancel_right₀ _ hmne]
      · rw [mul_div_cancel_right₀ _ hmne]
    · intro k hk
      have : k = index := by simpa using hk
      subst this
      exact hgood
  refine ⟨?_, haggNew⟩
  rw [InvN_iff]
  refine ⟨⟨[index], haggNew⟩, ?_, ?_⟩
  · intro k hk
    rw [QuadNode.bodyIndex_withStats] at hk
    injection hk with hk
    subst hk
    exact hgood
  · rw [childrenInv_withStats]
    exact ((InvN_iff positions masses n).mp hn).2.2

/-- The aggregate update of `QuadNode::insert` on a nonempty cell yields the
exact statistics of the extended list, keeping body index and children. -/
theorem insert_agg_step (positions : List Vec2) (masses : List FP) (n : QuadNode)
    (index : ℕ) (l : List ℕ)
    (hn : InvN positions masses n) (hagg : AggOf positions masses n l)
    (hgood : goodBodyAt positions masses index) (hne : l ≠ []) :
    InvN positions masses
      (n.withStats (n.count + 1) (n.mass + masses.getD index (FP.fin 0))
        (if FP.blt (FP.fin 0) (n.mass + masses.getD index (FP.fin 0)) then
          (n.com * n.mass + positions.getD index Vec2.zero * masses.getD index (FP.fin 0)) /
            (n.mass + masses.getD index (FP.fin 0))
        else n.com) n.bodyIndex) ∧
    AggOf positions masses
      (n.withStats (n.count + 1) (n.mass + masses.getD index (FP.fin 0))
        (if FP.blt (FP.fin 0) (n.mass + masses.getD index (FP.fin 0)) then
          (n.com * n.mass + positions.getD index Vec2.zero * masses.getD index (FP.fin 0)) /
            (n.mass + masses.getD index (FP.fin 0))
        else n.com) n.bodyIndex) (index :: l) := by
  obtain ⟨hcnt, hmass, hcom, hgoods⟩ := hagg
  obtain ⟨hmE, hmpos⟩ := goodBodyAt_mass positions masses index hgood
  have hpE := goodBodyAt_pos positions masses index hgood
  have htm := totalMass_pos positions masses l hgoods hne
  have hsum : n.mass + masses.getD index (FP.fin 0) =
      FP.fin (totalMass masses l + ratMass masses index) := by
    rw [hmass, hmE, FP.fin_add_fin]
  have hblt : FP.blt (FP.fin 0) (n.mass + masses.getD index (FP.fin 0)) = true := by
    rw [hsum, FP.blt_fin_fin]
    simp only [decide_eq_true_eq]
    linarith
  rw [if_pos hblt]
  have hcomNew : (n.com * n.mass +
      positions.getD index Vec2.zero * masses.getD index (FP.fin 0)) /
        (n.mass + masses.getD index (FP.fin 0)) =
      (⟨FP.fin (weightedX positions masses (index :: l) / totalMass masses (index :: l)),
        FP.fin (weightedY positions masses (index :: l) /
          totalMass masses (index :: l))⟩ : Vec2) := by
    rw [hcom hne, hmass, hmE, hpE, FP.fin_add_fin,
      com_update _ _ _ _ _ _ htm hmpos,
      weightedX_cons, weightedY_cons, totalMass_cons]
  have haggNew : AggOf positions masses
      (n.withStats (n.count + 1) (n.mass + masses.getD index (FP.fin 0))
        ((n.com * n.mass + positions.getD index Vec2.zero * masses.getD index (FP.fin 0)) /
          (n.mass + masses.getD index (FP.fin 0))) n.bodyIndex) (index :: l) := by
    refine ⟨?_, ?_, ?_, ?_⟩
    · rw [QuadNode.count_withStats, hcnt]; rfl
    · rw [QuadNode.mass_withStats, hsum, totalMass_cons]
      exact congrArg FP.fin (add_comm _ _)
    · intro _
      rw [QuadNode.com_withStats, hcomNew]
    · intro k hk
      rcases List.mem_cons.mp hk with hk | hk
      · subst hk; exact hgood
      · exact hgoods k hk
  refine ⟨?_, haggNew⟩
  rw [InvN_iff]
  refine ⟨⟨index :: l, haggNew⟩, ?_, ?_⟩
  · rw [QuadNode.bodyIndex_withStats]
    exact ((InvN_iff positions masses n).mp hn).2.1
  · rw [childrenInv_withStats]
    exact ((InvN_iff positions masses n).mp hn).2.2

/-- The descent phase of `QuadNode::insert` (leaf split, collapse, or child
recursion) preserves the node aggregates and the subtree invariant. -/
theorem insert_descend (positions : List Vec2) (masses : List FP) (minHalf : FP) (fuel : ℕ)
    (ihf : ∀ (n : QuadNode) (index : ℕ) (l : List ℕ),
      InvN positions masses n → AggOf positions masses n l →
      goodBodyAt positions masses index →
      InvN positions masses (QuadNode.insert positions masses minHalf fuel n index) ∧
      AggOf positions masses (QuadNode.insert positions masses minHalf fuel n index)
        (index :: l))
    (n2 : QuadNode) (index : ℕ) (l : List ℕ)
    (hagg : AggOf positions masses n2 (index :: l))
    (hbi : ∀ k, n2.bodyIndex = some k → goodBodyAt positions masses k)
    (hch : ChildrenInv positions masses n2)
    (hgood : goodBodyAt positions masses index) :
    InvN positions masses
      (if n2.isLeaf then
        match n2.bodyIndex with
        | some existingIndex =>
          if FP.ble n2.halfSize minHalf ||
              FP.ble ((positions.getD existingIndex Vec2.zero) -
                positions.getD index Vec2.zero).normSquared (FP.fin (1 / 10 ^ 18)) then
            n2.withBodyIndex none
          else
            QuadNode.insertIntoChildWith
              (fun c => QuadNode.insert positions masses minHalf fuel c index)
              (QuadNode.insertIntoChildWith
                (fun c => QuadNode.insert positions masses minHalf fuel c existingIndex)
                (n2.withBodyIndex none) (positions.getD existingIndex Vec2.zero))
              (positions.getD index Vec2.zero)
        | none => n2
      else
        QuadNode.insertIntoChildWith
          (fun c => QuadNode.insert positions masses minHalf fuel c index) n2
          (positions.getD index Vec2.zero)) ∧
    AggOf positions masses
      (if n2.isLeaf then
        match n2.bodyIndex with
        | some existingIndex =>
          if FP.ble n2.halfSize minHalf ||
              FP.ble ((positions.getD existingIndex Vec2.zero) -
                positions.getD index Vec2.zero).normSquared (FP.fin (1 / 10 ^ 18)) then
            n2.withBodyIndex none
          else
            QuadNode.insertIntoChildWith
              (fun c => QuadNode.insert positions masses minHalf fuel c index)
              (QuadNode.insertIntoChildWith
                (fun c => QuadNode.insert positions masses minHalf fuel c existingIndex)
                (n2.withBodyIndex none) (positions.getD existingIndex Vec2.zero))
              (positions.getD index Vec2.zero)
        | none => n2
      else
        QuadNode.insertIntoChildWith
          (fun c => QuadNode.insert positions masses minHalf fuel c index) n2
          (positions.getD index Vec2.zero)) (index :: l) := by
  have hins : ∀ (j : ℕ), goodBodyAt positions masses j →
      ∀ c, InvN positions masses c → InvN positions masses
        (QuadNode.insert positions masses minHalf fuel c j) := by
    intro j hj c hc
    obtain ⟨lc, hlc⟩ := ((InvN_iff positions masses c).mp hc).1
    exact (ihf c j lc hc hlc hj).1
  have mkInv : ∀ r : QuadNode,
      r.count = n2.count → r.mass = n2.mass → r.com = n2.com →
      (∀ k, r.bodyIndex = some k → goodBodyAt positions masses k) →
      ChildrenInv positions masses r →
      InvN positions masses r ∧ AggOf positions masses r (index :: l) := by
    intro r h1 h2 h3 h4 h5
    have haggr := AggOf_congr positions masses n2 r (index :: l) h1 h2 h3 hagg
    exact ⟨(InvN_iff positions masses r).mpr ⟨⟨_, haggr⟩, h4, h5⟩, haggr⟩
  by_cases hleaf : n2.isLeaf = true
  · rw [if_pos hleaf]
    rcases hbiEq : n2.bodyIndex with _ | existing
    · exact mkInv n2 rfl rfl rfl hbi hch
    · dsimp only
      have hgoodE : goodBodyAt positions masses existing := hbi existing hbiEq
      by_cases hcol : (FP.ble n2.halfSize minHalf ||
          FP.ble ((positions.getD existing Vec2.zero) -
            positions.getD index Vec2.zero).normSquared (FP.fin (1 / 10 ^ 18))) = true
      · rw [if_pos hcol]
        refine mkInv _ (QuadNode.count_withBodyIndex _ _) (QuadNode.mass_withBodyIndex _ _)
          (QuadNode.com_withBodyIndex _ _) ?_ ?_
        · intro k hk
          rw [QuadNode.bodyIndex_withBodyIndex] at hk
          cases hk
        · exact (childrenInv_withBodyIndex positions masses n2 none).mpr hch
      · rw [if_neg hcol]
        refine mkInv _ ?_ ?_ ?_ ?_ ?_
        · rw [QuadNode.count_insertIntoChildWith, QuadNode.count_insertIntoChildWith,
            QuadNode.count_withBodyIndex]
        · rw [QuadNode.mass_insertIntoChildWith, QuadNode.mass_insertIntoChildWith,
            QuadNode.mass_withBodyIndex]
        · rw [QuadNode.com_insertIntoChildWith, QuadNode.com_insertIntoChildWith,
            QuadNode.com_withBodyIndex]
        · intro k hk
          rw [QuadNode.bodyIndex_insertIntoChildWith, QuadNode.bodyIndex_insertIntoChildWith,
            QuadNode.bodyIndex_withBodyIndex] at hk
          cases hk
        · refine insertIntoChildWith_inv positions masses _ _ _ (hins index hgood) ?_
          refine insertIntoChildWith_inv positions masses _ _ _ (hins existing hgoodE) ?_
          exact (childrenInv_withBodyIndex positions masses n2 none).mpr hch
  · rw [if_neg hleaf]
    refine mkInv _ (QuadNode.count_insertIntoChildWith _ _ _)
      (QuadNode.mass_insertIntoChildWith _ _ _) (QuadNode.com_insertIntoChildWith _ _ _) ?_ ?_
    · intro k hk
      rw [QuadNode.bodyIndex_insertIntoChildWith] at hk
      exact hbi k hk
    · exact insertIntoChildWith_inv positions masses _ _ _ (hins index hgood) hch

/-- Inserting a good body preserves the tree invariant and extends the ghost
index list of the node by that body (any fuel). -/
theorem insert_inv (positions : List Vec2) (masses : List FP) (minHalf : FP) :
    ∀ (fuel : ℕ) (n : QuadNode) (index : ℕ) (l : List ℕ),
      InvN positions masses n → AggOf positions masses n l →
      goodBodyAt positions masses index →
      InvN positions masses (QuadNode.insert positions masses minHalf fuel n index) ∧
      AggOf positions masses (QuadNode.insert positions masses minHalf fuel n index)
        (index :: l) := by
  intro fuel
  induction fuel with
  | zero =>
      intro n index l hn hagg hgood
      unfold QuadNode.insert
      dsimp only
      by_cases h0 : n.count = 0
      · rw [if_pos h0]
        exact insert_first positions masses n index l hn hagg hgood h0
      · rw [if_neg h0]
        have hne : l ≠ [] := by
          intro hl
          apply h0
          rw [hagg.1, hl]
          rfl
        exact insert_agg_step positions masses n index l hn hagg hgood hne
  | succ fuel ih =>
      intro n index l hn hagg hgood
      unfold QuadNode.insert
      dsimp only
      by_cases h0 : n.count = 0
      · rw [if_pos h0]
        exact insert_first positions masses n index l hn hagg hgood h0
      · rw [if_neg h0]
        have hne : l ≠ [] := by
          intro hl
          apply h0
          rw [hagg.1, hl]
          rfl
        obtain ⟨hInv2, hAgg2⟩ := insert_agg_step positions masses n index l hn hagg hgood hne
        exact insert_descend positions masses minHalf fuel ih _ index l hAgg2
          ((InvN_iff positions masses _).mp hInv2).2.1
          ((InvN_iff positions masses _).mp hInv2).2.2 hgood

/-- Folding good insertions over a list preserves the invariant and
accumulates the ghost list in reverse. -/
theorem foldl_insert_inv (positions : List Vec2) (masses : List FP) (minHalf : FP)
    (fuel : ℕ) :
    ∀ (l : List ℕ) (n : QuadNode) (acc : List ℕ),
      InvN positions masses n → AggOf positions masses n acc →
      (∀ k ∈ l, goodBodyAt positions masses k) →
      InvN positions masses
        (l.foldl (fun nd k => QuadNode.insert positions masses minHalf fuel nd k) n) ∧
      AggOf positions masses
        (l.foldl (fun nd k => QuadNode.insert positions masses minHalf fuel nd k) n)
        (l.reverse ++ acc) := by
  intro l
  induction l with
  | nil =>
      intro n acc hn hagg _
      simpa using ⟨hn, hagg⟩
  | cons k l ihl =>
      intro n acc hn hagg hgoods
      rw [List.foldl_cons]
      obtain ⟨hn2, hagg2⟩ := insert_inv positions masses minHalf fuel n k acc hn hagg
        (hgoods k (by simp))
      obtain ⟨hn3, hagg3⟩ := ihl _ (k :: acc) hn2 hagg2 (fun x hx => hgoods x (by simp [hx]))
      refine ⟨hn3, ?_⟩
      simpa [List.reverse_cons, List.append_assoc] using hagg3

/-- A built quadtree satisfies the invariant, with the root ghost list being
exactly the inserted alive indices (reversed by the fold accumulation). -/
theorem buildQuadtree_some (fuel : ℕ) (positions : List Vec2) (aliveIndices : List ℕ)
    (masses : List FP) (root : QuadNode)
    (hgood : ∀ k ∈ aliveIndices, goodBodyAt positions masses k)
    (hbuild : buildQuadtree fuel positions aliveIndices masses = some root) :
    InvN positions masses root ∧
    AggOf positions masses root (aliveIndices.reverse ++ []) := by
  unfold buildQuadtree at hbuild
  by_cases hempty : aliveIndices.isEmpty = true
  · rw [if_pos hempty] at hbuild; cases hbuild
  · rw [if_neg hempty] at hbuild
    dsimp only at hbuild
    injection hbuild with hb
    rw [← hb]
    exact foldl_insert_inv positions masses _ fuel aliveIndices _ []
      (new_inv _ _ _ _)
      ⟨rfl, by rw [totalMass_nil]; rfl, fun h => absurd rfl h, by simp⟩ hgood

theorem totalMass_reverse_nil (masses : List FP) (l : List ℕ) :
    totalMass masses (l.reverse ++ []) = totalMass masses l := by
  simp [totalMass, List.sum_reverse]

theorem weightedX_reverse_nil (positions : List Vec2) (masses : List FP) (l : List ℕ) :
    weightedX positions masses (l.reverse ++ []) = weightedX positions masses l := by
  simp [weightedX, List.sum_reverse]

theorem weightedY_reverse_nil (positions : List Vec2) (masses : List FP) (l : List ℕ) :
    weightedY positions masses (l.reverse ++ []) = weightedY positions masses l := by
  simp [weightedY, List.sum_reverse]

/-- Claim C10: for a quadtree built over good bodies (finite positions and
positive masses), every node of the tree carries a count equal to the number
of bodies accumulated into its subtree, their summed mass, and their
mass-weighted centroid; in particular the root carries the alive count, the
total alive mass, and the global center of mass. -/
theorem c10_quadtree_aggregates (fuel : ℕ) (positions : List Vec2)
    (aliveIndices : List ℕ) (masses : List FP) (root : QuadNode)
    (hgood : ∀ k ∈ aliveIndices, goodBodyAt positions masses k)
    (hbuild : buildQuadtree fuel positions aliveIndices masses = some root) :
    InvN positions masses root ∧
    root.count = aliveIndices.length ∧
    root.mass = FP.fin (totalMass masses aliveIndices) ∧
    (aliveIndices ≠ [] →
      root.com =
        ⟨FP.fin (weightedX positions masses aliveIndices / totalMass masses aliveIndices),
         FP.fin (weightedY positions masses aliveIndices /
           totalMass masses aliveIndices)⟩) := by
  obtain ⟨hInv, hcnt, hmass, hcom, _⟩ :=
    buildQuadtree_some fuel positions aliveIndices masses root hgood hbuild
  refine ⟨hInv, ?_, ?_, ?_⟩
  · rw [hcnt]; simp
  · rw [hmass, totalMass_reverse_nil]
  · intro hne
    have hne2 : aliveIndices.reverse ++ [] ≠ [] := by simp [hne]
    rw [hcom hne2, totalMass_reverse_nil, weightedX_reverse_nil, weightedY_reverse_nil]

/-- Claim C10, witness: a single body of mass 3 at (1, 2) yields a root with
count 1, mass 3, and center of mass (1, 2). -/
theorem c10_witness :
    ∃ root : QuadNode,
      buildQuadtree 5 [⟨FP.fin 1, FP.fin 2⟩] [0] [FP.fin 3] = some root ∧
      root.count = 1 ∧ root.mass = FP.fin 3 ∧ root.com = ⟨FP.fin 1, FP.fin 2⟩ := by
  have h := c10_quadtree_aggregates 5 [⟨FP.fin 1, FP.fin 2⟩] [0] [FP.fin 3]
    (QuadNode.node ⟨FP.fin 1, FP.fin 2⟩ (FP.fin (3/2000000)) (FP.fin 3)
      ⟨FP.fin 1, FP.fin 2⟩ 1 (some 0) none none none none)
    (by
      intro k hk
      have hk0 : k = 0 := by simpa using hk
      subst hk0
      with_unfolding_all rfl)
    (by with_unfolding_all rfl)
  refine ⟨_, by with_unfolding_all rfl, h.2.1, ?_, ?_⟩
  · rw [h.2.2.1]
    with_unfolding_all rfl
  · rw [h.2.2.2 (by simp)]
    with_unfolding_all rfl
